import Mathlib

set_option maxRecDepth 4000000

instance {α β : Type} [DecidableEq α] [DecidableEq β] : DecidableEq (Except α β) := fun a b =>
  match a, b with
  | .ok x, .ok y => if h : x = y then .isTrue (by rw [h]) else .isFalse (by simp [h])
  | .error x, .error y => if h : x = y then .isTrue (by rw [h]) else .isFalse (by simp [h])
  | .ok _, .error _ => .isFalse (by simp)
  | .error _, .ok _ => .isFalse (by simp)

/-!
Verification of the `xrpl-rs` workspace (crates `serde-xrpl` and `xrpl-rs`)
against its natural-language specification.

The development shallowly embeds the relevant Rust code:

* bytes are natural numbers below 256, byte strings are `List Nat`;
* fallible Rust code returning `Result<_, Error>` is embedded as
  `Except Error _`; a Rust `panic!` (process abort, as opposed to a
  returned error) is embedded as the distinguished error `Error.panic`,
  so that a returned error and an abort stay observably different;
* external crates (sha2, ripemd, bs58, rust_decimal, secp256k1) are either
  implemented concretely (SHA-256, base58) or taken as function parameters
  (SHA-512, ECDSA signing) where only their plumbing matters.
-/

namespace SerdeXrpl

/-- The codec error type.  Modelled: `serde-xrpl/src/error.rs` is not part of
the provided sources; the variants are taken from their uses in `ser.rs`,
`utils.rs`, `types.rs` and `definitions.rs`, together with the spec's error
list (§4.B.6), which additionally names `InvalidCurrency` and
`LengthOverflow`.  The extra variant `panic` models a Rust `panic!` /
`unwrap` abort, which is not a returned error. -/
inductive Error where
  | message (s : String)
  | unknownFieldName (s : String)
  | unknownFieldType (s : String)
  | invalidAddress
  | invalidAmount (s : String)
  | invalidIssuedCurrencyAmount (s : String)
  | invalidTransactionType (s : String)
  | invalidCurrency
  | lengthOverflow
  | panic (s : String)
deriving DecidableEq, Repr

/-- Big-endian fixed-width byte image of `v` (Rust `to_be_bytes`). -/
def beBytes (w v : Nat) : List Nat :=
  (List.range w).map (fun i => v / 256 ^ (w - 1 - i) % 256)

/-- Value of one hexadecimal digit, if any (both cases accepted, as
`hex::decode` does). -/
def hexCharVal (c : Char) : Option Nat :=
  if '0' ≤ c ∧ c ≤ '9' then some (c.toNat - 48)
  else if 'a' ≤ c ∧ c ≤ 'f' then some (c.toNat - 87)
  else if 'A' ≤ c ∧ c ≤ 'F' then some (c.toNat - 55)
  else none

/-- Decode a hex string into bytes; `none` on odd length or bad digit
(models `hex::decode`). -/
def hexDecodeChars : List Char → Option (List Nat)
  | [] => some []
  | [_] => none
  | a :: b :: rest => do
      let hi ← hexCharVal a
      let lo ← hexCharVal b
      let tail ← hexDecodeChars rest
      pure ((hi * 16 + lo) :: tail)

def hexDecode (s : String) : Option (List Nat) := hexDecodeChars s.data

/-- Lower-case hex digit for a value below 16. -/
def hexDigitLower (n : Nat) : Char :=
  if n < 10 then Char.ofNat (48 + n) else Char.ofNat (87 + n)

/-- Upper-case hex digit for a value below 16. -/
def hexDigitUpper (n : Nat) : Char :=
  if n < 10 then Char.ofNat (48 + n) else Char.ofNat (55 + n)

/-- Lower-case hex string of a byte list (models `hex::encode`, and the
lower-case `Display` of `secp256k1::PublicKey` on its 33 serialized bytes). -/
def hexStrLower (bs : List Nat) : String :=
  String.mk (List.flatten (bs.map (fun b => [hexDigitLower (b / 16), hexDigitLower (b % 16)])))

/-- Upper-case hex string of a byte list (models
`hex::encode(..).to_uppercase()`). -/
def hexStrUpper (bs : List Nat) : String :=
  String.mk (List.flatten (bs.map (fun b => [hexDigitUpper (b / 16), hexDigitUpper (b % 16)])))

/-- UTF-8 bytes of a string, restricted to the ASCII inputs the codec deals
with (currency codes, addresses, hex strings); on ASCII, code points and
UTF-8 bytes coincide (models Rust `str::as_bytes`). -/
def asciiBytes (s : String) : List Nat := s.data.map Char.toNat

/-! ### `serde-xrpl/src/utils.rs`: length prefix and field id -/

/-- `encode_variable_length` from `utils.rs`.  The Rust function returns a
plain `Vec<u8>` and executes `panic!("overflow error")` above 918744; the
panic is modelled as `Error.panic`. -/
def encode_variable_length (length : Nat) : Except Error (List Nat) :=
  if length ≤ 192 then .ok [length]
  else if length ≤ 12480 then
    let length_a := length - 193
    .ok [193 + length_a / 256, length_a % 256]
  else if length ≤ 918744 then
    let length_a := length - 12481
    .ok [241 + length_a / 65536, length_a / 256 % 256, length_a % 256]
  else .error (.panic "overflow error")

/-- `encode_field_id` from `utils.rs`. -/
def encode_field_id (type_code field_code : Nat) : List Nat :=
  if type_code < 16 ∧ field_code < 16 then [type_code * 16 + field_code]
  else if type_code < 16 ∧ 16 ≤ field_code then [type_code * 16, field_code]
  else if 16 ≤ type_code ∧ field_code < 16 then [field_code, type_code]
  else [0, type_code, field_code]

/-- `encode_currency_code` from `utils.rs`.  The check is on the byte length
of the string: a 3-byte code is padded, a 20-byte string is emitted
literally (no hex decoding happens), and anything else executes
`panic!("invalid currency code")`. -/
def encode_currency_code (currency_code : String) : Except Error (List Nat) :=
  let bs := asciiBytes currency_code
  if bs.length = 3 then .ok (List.replicate 12 0 ++ bs ++ List.replicate 5 0)
  else if bs.length = 20 then .ok bs
  else .error (.panic "invalid currency code")

/-! ### SHA-256 (needed by base58-check address decoding) -/

def w32 (x : Nat) : Nat := x % 4294967296

def rotr32 (x n : Nat) : Nat := w32 ((x >>> n) ||| (x <<< (32 - n)))

def bsig0 (x : Nat) : Nat := rotr32 x 2 ^^^ rotr32 x 13 ^^^ rotr32 x 22

def bsig1 (x : Nat) : Nat := rotr32 x 6 ^^^ rotr32 x 11 ^^^ rotr32 x 25

def ssig0 (x : Nat) : Nat := rotr32 x 7 ^^^ rotr32 x 18 ^^^ (x >>> 3)

def ssig1 (x : Nat) : Nat := rotr32 x 17 ^^^ rotr32 x 19 ^^^ (x >>> 10)

def chWord (x y z : Nat) : Nat := (x &&& y) ^^^ ((x ^^^ 4294967295) &&& z)

def majWord (x y z : Nat) : Nat := (x &&& y) ^^^ (x &&& z) ^^^ (y &&& z)

def sha256K : List Nat :=
  [0x428A2F98, 0x71374491, 0xB5C0FBCF, 0xE9B5DBA5, 0x3956C25B, 0x59F111F1,
   0x923F82A4, 0xAB1C5ED5, 0xD807AA98, 0x12835B01, 0x243185BE, 0x550C7DC3,
   0x72BE5D74, 0x80DEB1FE, 0x9BDC06A7, 0xC19BF174, 0xE49B69C1, 0xEFBE4786,
   0x0FC19DC6, 0x240CA1CC, 0x2DE92C6F, 0x4A7484AA, 0x5CB0A9DC, 0x76F988DA,
   0x983E5152, 0xA831C66D, 0xB00327C8, 0xBF597FC7, 0xC6E00BF3, 0xD5A79147,
   0x06CA6351, 0x14292967, 0x27B70A85, 0x2E1B2138, 0x4D2C6DFC, 0x53380D13,
   0x650A7354, 0x766A0ABB, 0x81C2C92E, 0x92722C85, 0xA2BFE8A1, 0xA81A664B,
   0xC24B8B70, 0xC76C51A3, 0xD192E819, 0xD6990624, 0xF40E3585, 0x106AA070,
   0x19A4C116, 0x1E376C08, 0x2748774C, 0x34B0BCB5, 0x391C0CB3, 0x4ED8AA4A,
   0x5B9CCA4F, 0x682E6FF3, 0x748F82EE, 0x78A5636F, 0x84C87814, 0x8CC70208,
   0x90BEFFFA, 0xA4506CEB, 0xBEF9A3F7, 0xC67178F2]

def sha256H0 : List Nat :=
  [0x6A09E667, 0xBB67AE85, 0x3C6EF372, 0xA54FF53A,
   0x510E527F, 0x9B05688C, 0x1F83D9AB, 0x5BE0CD19]

/-- SHA-256 message padding: `0x80`, zeros to 56 mod 64, 8-byte bit length. -/
def sha256Pad (msg : List Nat) : List Nat :=
  let len := msg.length
  let zeros := (119 - len % 64) % 64
  msg ++ 128 :: List.replicate zeros 0 ++ beBytes 8 (8 * len)

/-- Group bytes into big-endian 32-bit words. -/
def bytesToWords : List Nat → List Nat
  | a :: b :: c :: d :: rest => (((a * 256 + b) * 256 + c) * 256 + d) :: bytesToWords rest
  | _ => []

/-- Group words into 16-word blocks. -/
def toBlocks : List Nat → List (List Nat)
  | w0 :: w1 :: w2 :: w3 :: w4 :: w5 :: w6 :: w7 ::
    w8 :: w9 :: w10 :: w11 :: w12 :: w13 :: w14 :: w15 :: rest =>
      [w0, w1, w2, w3, w4, w5, w6, w7, w8, w9, w10, w11, w12, w13, w14, w15] :: toBlocks rest
  | _ => []

/-- Extend a 16-word block by `k` further schedule words. -/
def extendW (w : List Nat) : Nat → List Nat
  | 0 => w
  | k + 1 =>
      let n := w.length
      let nw := w32 (ssig1 (w.getD (n - 2) 0) + w.getD (n - 7) 0 +
                     ssig0 (w.getD (n - 15) 0) + w.getD (n - 16) 0)
      extendW (w ++ [nw]) k

def sha256Step (st : List Nat) (kw : Nat × Nat) : List Nat :=
  match st with
  | [a, b, c, d, e, f, g, h] =>
      let t1 := w32 (h + bsig1 e + chWord e f g + kw.2 + kw.1)
      let t2 := w32 (bsig0 a + majWord a b c)
      [w32 (t1 + t2), a, b, c, w32 (d + t1), e, f, g]
  | st => st

def sha256Compress (h : List Nat) (block : List Nat) : List Nat :=
  let w := extendW block 48
  let fin := (w.zip sha256K).foldl sha256Step h
  (h.zip fin).map (fun p => w32 (p.1 + p.2))

/-- SHA-256 of a byte list, as bytes. -/
def sha256 (msg : List Nat) : List Nat :=
  let hs := (toBlocks (bytesToWords (sha256Pad msg))).foldl sha256Compress sha256H0
  List.flatten (hs.map (beBytes 4))

/-! ### base58 with the XRPL alphabet (`bs58` crate, `Alphabet::RIPPLE`) -/

def XRPL_ALPHABET : List Char :=
  "rpshnaf39wBUDNEGHJKLM4PQRST7VWXYZ2bcdeCg65jkm8oFqi1tuvAxyz".data

def b58Index (c : Char) : Option Nat := XRPL_ALPHABET.indexOf? c

/-- Minimal big-endian byte image of a natural number (empty for 0). -/
def natToBytesBEAux : Nat → Nat → List Nat → List Nat
  | 0, _, acc => acc
  | fuel + 1, n, acc =>
      if n = 0 then acc else natToBytesBEAux fuel (n / 256) (n % 256 :: acc)

def natToBytesBE (n : Nat) : List Nat := natToBytesBEAux n n []

/-- Raw base58 decoding with the XRPL (RIPPLE) alphabet: the digits as a
big number, preceded by one zero byte per leading zero character. -/
def base58DecodeXrpl (s : String) : Option (List Nat) := do
  let idxs ← s.data.mapM b58Index
  let n := idxs.foldl (fun acc d => acc * 58 + d) 0
  let nz := (s.data.takeWhile (· = 'r')).length
  pure (List.replicate nz 0 ++ natToBytesBE n)

/-- `decode_base58` from `utils.rs`: base58-check decode (4-byte double
SHA-256 checksum, via the `bs58` crate), all decode failures collapsed to
`InvalidAddress`, then the expected version bytes are checked and
stripped. -/
def decode_base58 (b58_string : String) (pfx : List Nat) : Except Error (List Nat) :=
  match base58DecodeXrpl b58_string with
  | none => .error .invalidAddress
  | some raw =>
      if raw.length < 4 then .error .invalidAddress
      else
        let payload := raw.take (raw.length - 4)
        let chk := raw.drop (raw.length - 4)
        if chk ≠ (sha256 (sha256 payload)).take 4 then .error .invalidAddress
        else if payload.length < pfx.length then
          .error (.panic "slice index out of range")
        else if payload.take pfx.length ≠ pfx then .error .invalidAddress
        else .ok (payload.drop pfx.length)

/-! ### `serde-xrpl/src/definitions.rs`: the field registry -/

/-- Per-field registry data (`FieldInfo` in `definitions.rs`). -/
structure FieldInfo where
  nth : Nat
  isVLEncoded : Bool
  isSerialized : Bool
  isSigningField : Bool
  type : String
deriving DecidableEq, Repr

/-- Modelled from the spec: the embedded `definitions.json` resource is not
part of the provided sources (it is an `include_str!` asset).  Following
§3.1, §4.A and §6.3 of the spec, the registry maps field names to
`(nth, type, isVLEncoded, isSerialized, isSigningField)`; the rows below
are the standard XRPL definitions entries for the fields used by the
transaction types of this crate — in particular `TxnSignature` and
`Signature` have `isSigningField = false`, and `hash` has
`isSerialized = false`. -/
def FIELDS : List (String × FieldInfo) :=
  [("Account", ⟨1, true, true, true, "AccountID"⟩),
   ("Destination", ⟨3, true, true, true, "AccountID"⟩),
   ("Issuer", ⟨4, true, true, true, "AccountID"⟩),
   ("Amount", ⟨1, false, true, true, "Amount"⟩),
   ("Balance", ⟨2, false, true, true, "Amount"⟩),
   ("LimitAmount", ⟨3, false, true, true, "Amount"⟩),
   ("TakerPays", ⟨4, false, true, true, "Amount"⟩),
   ("TakerGets", ⟨5, false, true, true, "Amount"⟩),
   ("Fee", ⟨8, false, true, true, "Amount"⟩),
   ("TransactionType", ⟨2, false, true, true, "UInt16"⟩),
   ("TransferFee", ⟨4, false, true, true, "UInt16"⟩),
   ("Flags", ⟨2, false, true, true, "UInt32"⟩),
   ("Sequence", ⟨4, false, true, true, "UInt32"⟩),
   ("Expiration", ⟨10, false, true, true, "UInt32"⟩),
   ("TransferRate", ⟨11, false, true, true, "UInt32"⟩),
   ("DestinationTag", ⟨14, false, true, true, "UInt32"⟩),
   ("QualityIn", ⟨21, false, true, true, "UInt32"⟩),
   ("QualityOut", ⟨22, false, true, true, "UInt32"⟩),
   ("OfferSequence", ⟨25, false, true, true, "UInt32"⟩),
   ("LastLedgerSequence", ⟨27, false, true, true, "UInt32"⟩),
   ("SetFlag", ⟨33, false, true, true, "UInt32"⟩),
   ("ClearFlag", ⟨34, false, true, true, "UInt32"⟩),
   ("CancelAfter", ⟨36, false, true, true, "UInt32"⟩),
   ("SettleDelay", ⟨39, false, true, true, "UInt32"⟩),
   ("EmailHash", ⟨1, false, true, true, "Hash128"⟩),
   ("Channel", ⟨22, false, true, true, "Hash256"⟩),
   ("hash", ⟨257, false, false, false, "Hash256"⟩),
   ("PublicKey", ⟨1, true, true, true, "Blob"⟩),
   ("MessageKey", ⟨2, true, true, true, "Blob"⟩),
   ("SigningPubKey", ⟨3, true, true, true, "Blob"⟩),
   ("TxnSignature", ⟨4, true, true, false, "Blob"⟩),
   ("Signature", ⟨6, true, true, false, "Blob"⟩),
   ("Domain", ⟨7, true, true, true, "Blob"⟩),
   ("TickSize", ⟨16, false, true, true, "UInt8"⟩)]

/-- Modelled from the spec (§3.2): the type-code table of the definitions
resource, restricted to the types the registry rows above use. -/
def TYPES : List (String × Nat) :=
  [("UInt16", 1), ("UInt32", 2), ("UInt64", 3), ("Hash128", 4),
   ("Hash256", 5), ("Amount", 6), ("Blob", 7), ("AccountID", 8), ("UInt8", 16)]

/-- Modelled from the spec (§6.3, §3.4): transaction-type name → code. -/
def TRANSACTION_TYPES : List (String × Nat) :=
  [("Payment", 0), ("EscrowCreate", 1), ("AccountSet", 3), ("OfferCreate", 7),
   ("PaymentChannelCreate", 13), ("PaymentChannelFund", 14),
   ("PaymentChannelClaim", 15), ("TrustSet", 20), ("NFTokenMint", 25)]

/-- Modelled from the spec (§6.3): ledger-entry-type name → code. -/
def LEDGER_ENTRY_TYPES : List (String × Nat) :=
  [("AccountRoot", 97)]

/-- `is_signing_field` from `definitions.rs` (first matching row). -/
def is_signing_field (field_name : String) : Option Bool :=
  (FIELDS.find? (fun f => f.1 = field_name)).map (fun f => f.2.isSigningField)

/-- `is_serialized_field` from `definitions.rs`. -/
def is_serialized_field (field_name : String) : Option Bool :=
  (FIELDS.find? (fun f => f.1 = field_name)).map (fun f => f.2.isSerialized)

/-- `get_field_code_and_type_code` from `definitions.rs`: `(field_code,
type_code)`, each converted to `u8` (`Error.message` on overflow, as
`try_into` failures are mapped), `UnknownFieldType` when the type name is
not in the type table, `UnknownFieldName` when no row matches. -/
def get_field_code_and_type_code (field_name : String) : Except Error (Nat × Nat) :=
  match FIELDS.find? (fun f => f.1 = field_name) with
  | none => .error (.unknownFieldName field_name)
  | some f =>
      match TYPES.find? (fun t => t.1 = f.2.type) with
      | none => .error (.unknownFieldType f.2.type)
      | some t =>
          if f.2.nth ≥ 256 then .error (.message "out of range integral type conversion attempted")
          else if t.2 ≥ 256 then .error (.message "out of range integral type conversion attempted")
          else .ok (f.2.nth, t.2)

/-- `get_transaction_type` from `definitions.rs`: transaction types first,
then ledger entry types, else `InvalidTransactionType`. -/
def get_transaction_type (transaction_type_name : String) : Except Error Nat :=
  match TRANSACTION_TYPES.find? (fun t => t.1 = transaction_type_name) with
  | some t => .ok t.2
  | none =>
      match LEDGER_ENTRY_TYPES.find? (fun t => t.1 = transaction_type_name) with
      | some t => .ok t.2
      | none => .error (.invalidTransactionType transaction_type_name)

/-! ### The `rust_decimal` model -/

/-- Model of `rust_decimal::Decimal`: sign, 96-bit mantissa, scale ≤ 28,
denoting `(-1)^neg * mantissa / 10^scale`. -/
structure Decimal where
  neg : Bool
  mantissa : Nat
  scale : Nat
deriving DecidableEq, Repr

/-- Model of `Decimal::from_str`: plain decimal notation (optional sign,
digits, at most one point); scientific notation (`1e-96`) is rejected, as
the crate's `FromStr` only accepts it via the separate `from_scientific`
constructor.  Model restriction: inputs needing more than 28 fractional
digits or a mantissa of 96 bits or more are rejected (the crate rounds
long fractions; no input in this development is affected). -/
def parseDecimalDigits : List Char → Bool → Nat → Nat → Option Decimal
  | [], neg, m, scale => some ⟨neg, m, scale⟩
  | c :: rest, neg, m, scale =>
      if '0' ≤ c ∧ c ≤ '9' then parseDecimalDigits rest neg (m * 10 + (c.toNat - 48)) (scale + 1)
      else none

def parseDecimalInt : List Char → Bool → Nat → Option Decimal
  | [], neg, m => some ⟨neg, m, 0⟩
  | c :: rest, neg, m =>
      if '0' ≤ c ∧ c ≤ '9' then parseDecimalInt rest neg (m * 10 + (c.toNat - 48))
      else if c = '.' then parseDecimalDigits rest neg m 0
      else none

def parseDecimal (s : String) : Option Decimal :=
  let core : List Char → Bool → Option Decimal := fun cs neg =>
    match parseDecimalInt cs neg 0 with
    | none => none
    | some d =>
        if cs.all (fun c => ¬ ('0' ≤ c ∧ c ≤ '9')) then none
        else if d.scale > 28 ∨ d.mantissa ≥ 2 ^ 96 then none
        else some d
  match s.data with
  | [] => none
  | '-' :: rest => core rest true
  | '+' :: rest => core rest false
  | cs => core cs false

/-- Fuel-driven digit recursion underlying `floorLog10`. -/
def digitCountAux : Nat → Nat → Nat
  | 0, _ => 0
  | fuel + 1, n => if n < 10 then 0 else 1 + digitCountAux fuel (n / 10)

/-- `floorLog10 n = Nat.log 10 n`, computable by kernel reduction (it is the
number of decimal digits of `n` minus one). -/
def floorLog10 (n : Nat) : Nat := digitCountAux n n

/-- Rounding to nearest with ties to even (the crate's default midpoint
strategy), used when `rescale` reduces the scale. -/
def roundHalfEven (n q : Nat) : Nat :=
  let qt := n / q
  let r := n % q
  if 2 * r < q then qt
  else if q < 2 * r then qt + 1
  else if qt % 2 = 0 then qt else qt + 1

/-- Mantissa after `decimal_amount.rescale(15 - e)` where
`e = floor(log10) = (digits of m) - 1 - scale`: the scale change is
`15 - (Nat.log 10 m)` independently of the original scale. -/
def rescaledMantissa (m dm : Nat) : Nat :=
  if dm ≤ 15 then m * 10 ^ (15 - dm) else roundHalfEven m (10 ^ (dm - 15))

/-- `encode_issued_currency_amount` from `utils.rs`.  The issuer is decoded
first; the amount is parsed with `Decimal::from_str`
(`InvalidIssuedCurrencyAmount` on failure; the model stores the input
string where the Rust code formats the parse error).  For a non-zero
amount the code computes `e = log10().floor().to_u32().unwrap()` — which
panics for values below 1 (negative floor) and panics inside `ln` for
negative values — rescales to `15 - e` (a `u32` subtraction that overflows
for `e > 15`), and overlays bit 63, the sign bit 62 and the exponent byte
`97 + e - 15` onto the big-endian mantissa. -/
def encode_issued_currency_amount (amount currency issuer : String) :
    Except Error (List Nat) := do
  let encoded_address ← decode_base58 issuer [0]
  let d ← match parseDecimal amount with
    | none => Except.error (.invalidIssuedCurrencyAmount amount)
    | some d => Except.ok d
  let encoded_amount ←
    if d.mantissa = 0 then
      Except.ok (128 :: List.replicate 7 0)
    else if d.neg then
      Except.error (.panic "Unable to calculate ln for a negative number")
    else
      let dm := floorLog10 d.mantissa
      if dm < d.scale then
        Except.error (.panic "called Option::unwrap() on a None value")
      else
        let e := dm - d.scale
        if 15 < e then
          Except.error (.panic "attempt to subtract with overflow")
        else
          let m' := rescaledMantissa d.mantissa dm
          if 2 ^ 64 ≤ m' then
            Except.error (.panic "called Option::unwrap() on a None value")
          else
            let exponent_byte := 97 + e - 15
            match beBytes 8 m' with
            | b0 :: b1 :: rest =>
                Except.ok ((b0 ||| 128 ||| (if d.neg then 0 else 64) ||| (exponent_byte / 4)) ::
                           (b1 ||| (exponent_byte % 4 * 64)) :: rest)
            | bs => Except.ok bs
  let encoded_currency ← encode_currency_code currency
  .ok (encoded_amount ++ encoded_currency ++ encoded_address)

/-! ### `serde-xrpl/src/hash_prefixes.rs` -/

def TRANSACTION_ID : List Nat := [0x54, 0x58, 0x4e, 0x00]

def TRANSACTION_SIG : List Nat := [0x53, 0x54, 0x58, 0x00]

def PAYMENT_CHANNEL_CLAIM : List Nat := [0x43, 0x4c, 0x4d, 0x00]

/-! ### `serde-xrpl/src/types.rs`: the `Value` sum and its byte encodings -/

/-- The `Amount` sum from `types.rs`. -/
inductive Amount where
  | XRP (drops : Nat)
  | IssuedCurrency (value currency issuer : String)
deriving DecidableEq, Repr

/-- The `Value` sum from `types.rs`, restricted to the constructors the
serializer produces (the remaining Rust constructors are only reached
through `unimplemented!()` paths). -/
inductive Value where
  | Hash128 (s : String)
  | Blob (s : String)
  | AccountID (s : String)
  | Amount (a : Amount)
  | Hash256 (s : String)
  | UInt8 (n : Nat)
  | Vector256 (v : List String)
  | Transaction (n : Nat)
  | UInt16 (n : Nat)
  | NotPresent
  | UInt64 (n : Nat)
  | UInt32 (n : Nat)
deriving DecidableEq, Repr

/-- `Amount::to_bytes` from `types.rs`: XRP drops are OR-ed with bit 62;
issued currencies go through `encode_issued_currency_amount`. -/
def Amount.to_bytes : Amount → Except Error (List Nat)
  | .XRP drops => .ok (beBytes 8 (drops ||| 4611686018427387904))
  | .IssuedCurrency v c i => encode_issued_currency_amount v c i

/-- `Value::to_bytes` from `types.rs`.  `hex::decode(..).unwrap()` panics on
malformed hex; unhandled constructors hit `unimplemented!()`. -/
def Value.to_bytes : Value → Except Error (List Nat)
  | .AccountID account_id => do
      let address ← decode_base58 account_id [0]
      let length ← encode_variable_length address.length
      .ok (length ++ address)
  | .Amount a => a.to_bytes
  | .UInt8 u => .ok (beBytes 1 u)
  | .UInt16 u => .ok (beBytes 2 u)
  | .UInt32 u => .ok (beBytes 4 u)
  | .UInt64 u => .ok (beBytes 8 u)
  | .Blob blob =>
      match hexDecode blob with
      | none => .error (.panic "called Result::unwrap() on an Err value")
      | some data => do
          let length ← encode_variable_length data.length
          .ok (length ++ data)
  | .Transaction tx => .ok (beBytes 2 tx)
  | .Hash256 hash =>
      match hexDecode hash with
      | none => .error (.panic "called Result::unwrap() on an Err value")
      | some data => .ok data
  | .Vector256 v =>
      match (v.mapM hexDecode) with
      | none => .error (.panic "called Result::unwrap() on an Err value")
      | some datas => do
          let data := List.flatten datas
          let length ← encode_variable_length data.length
          .ok (length ++ data)
  | _ => .error (.panic "not implemented")

/-! ### `serde-xrpl/src/ser.rs`: the serializer -/

/-- The issued-currency builder (`SubType::IssuedCurrency` in `ser.rs`). -/
structure SubTypeIC where
  current_key : String
  value : Option String
  currency : Option String
  issuer : Option String
deriving DecidableEq, Repr

/-- `FieldHeader` from `ser.rs`. -/
structure FieldHeader where
  type_code : Nat
  field_code : Nat
  sub_type : Option SubTypeIC
deriving DecidableEq, Repr

def FieldHeader.to_bytes (h : FieldHeader) : List Nat :=
  encode_field_id h.type_code h.field_code

/-- `SerializerOptions` from `ser.rs` (`pfx`/`sfx` stand for the `prefix` /
`suffix` options). -/
structure SerializerOptions where
  pfx : Option (List Nat) := none
  sfx : Option (List Nat) := none
  signing_fields_only : Bool := false

/-- The mutable part of `Serializer` that the traversal threads through
(`sequence`, `field`, `fields`); the output buffer is assembled afterwards
in `to_bytes_with_opts`, which is where the Rust code also first writes
to it. -/
structure SerState where
  sequence : Nat
  field : Option (FieldHeader × Value)
  fields : List (FieldHeader × Value)
deriving DecidableEq, Repr

def initSerState : SerState := ⟨0, none, []⟩

/-- The JSON sub-language the embedded codec operates on: objects of
string / integer / null leaves with one level of object nesting (which is
what `serde_json::to_value` produces for the transaction records of this
crate; arrays and deeper nesting are not exercised by any transaction
type in scope).  Object keys are listed in `BTreeMap` (sorted) order, as
`serde_json::Value` stores and serializes them. -/
inductive JLeaf where
  | str (s : String)
  | num (n : Nat)
  | jnull
deriving DecidableEq, Repr

inductive JVal where
  | str (s : String)
  | num (n : Nat)
  | jnull
  | obj (kvs : List (String × JLeaf))
deriving DecidableEq, Repr

/-- `SerializeMap::serialize_key` from `ser.rs`: a pending Amount field
captures the key into its issued-currency builder; otherwise the key is
resolved through the registry — unknown or non-serialized names clear the
pending field, a signing-filtered name returns early (leaving the pending
field untouched), and a retained name installs a fresh pending field. -/
def serialize_key (opts : SerializerOptions) (st : SerState) (key_str : String) :
    Except Error SerState :=
  let viaRegistry : Except Error SerState :=
    if (is_serialized_field key_str).getD false then
      if opts.signing_fields_only ∧ ¬ (is_signing_field key_str).getD false then
        .ok st
      else do
        let fc_tc ← get_field_code_and_type_code key_str
        .ok { st with field := some (⟨fc_tc.2, fc_tc.1, none⟩, Value.NotPresent) }
    else .ok { st with field := none }
  match st.field with
  | some (header, v) =>
      if header.type_code = 6 then
        match header.sub_type with
        | none =>
            .ok { st with field := some ({ header with sub_type := some ⟨key_str, none, none, none⟩ }, v) }
        | some sub =>
            .ok { st with field := some ({ header with sub_type := some { sub with current_key := key_str } }, v) }
      else viaRegistry
  | none => viaRegistry

/-- Push a completed `(header, value)` pair and clear the pending field. -/
def pushField (st : SerState) (header : FieldHeader) (val : Value) : SerState :=
  { st with field := none, fields := st.fields ++ [(header, val)] }

/-- Model of Rust `str::parse::<u64>`: optional `+`, nonempty digits,
value below `2^64`. -/
def parseU64 (s : String) : Option Nat :=
  let digits : List Char → Option Nat := fun cs =>
    if cs = [] ∨ ¬ cs.all (fun c => '0' ≤ c ∧ c ≤ '9') then none
    else
      let n := cs.foldl (fun acc c => acc * 10 + (c.toNat - 48)) 0
      if n < 2 ^ 64 then some n else none
  match s.data with
  | '+' :: rest => digits rest
  | cs => digits cs

/-- `Serializer::serialize_str` from `ser.rs`: dispatch on the pending
field's type code (Vector256 accumulation, AccountID, Blob, Amount — with
the issued-currency builder on re-entry —, Hash256, transaction type
resolution, UInt64 parsing; any other type code is `unimplemented!()`). -/
def serialize_str (st : SerState) (v : String) : Except Error SerState :=
  match st.field with
  | none => .ok st
  | some (header, data) =>
      match header.type_code with
      | 19 =>
          let vec := match data with
            | .Vector256 vec => vec ++ [v]
            | _ => [v]
          if st.sequence = 0 then .error (.panic "attempt to subtract with overflow")
          else
            let st' := { st with sequence := st.sequence - 1,
                                 field := some (header, Value.Vector256 vec) }
            if st'.sequence ≠ 0 then .ok st'
            else .ok (pushField { st with sequence := st'.sequence } header (Value.Vector256 vec))
      | 8 => .ok (pushField st header (Value.AccountID v))
      | 7 => .ok (pushField st header (Value.Blob v))
      | 6 =>
          match header.sub_type with
          | none =>
              match parseU64 v with
              | none => .error (.invalidAmount v)
              | some i => .ok (pushField st header (Value.Amount (Amount.XRP i)))
          | some sub =>
              let sub' :=
                if sub.current_key = "value" then { sub with value := some v }
                else if sub.current_key = "currency" then { sub with currency := some v }
                else if sub.current_key = "issuer" then { sub with issuer := some v }
                else sub
              match sub'.value, sub'.currency, sub'.issuer with
              | some vv, some cc, some ii =>
                  .ok (pushField st { header with sub_type := some sub' }
                        (Value.Amount (Amount.IssuedCurrency vv cc ii)))
              | _, _, _ =>
                  .ok { st with field := some ({ header with sub_type := some sub' }, data) }
      | 5 => .ok (pushField st header (Value.Hash256 v))
      | 1 => do
          let i ← get_transaction_type v
          .ok (pushField st header (Value.Transaction (i % 65536)))
      | 3 =>
          match parseU64 v with
          | none => .error (.invalidAmount v)
          | some i => .ok (pushField st header (Value.UInt64 i))
      | _ => .error (.panic "not implemented")

/-- `Serializer::serialize_u64` (and `serialize_u32`) from `ser.rs`:
dispatch on the pending field's type code, with Rust `as` truncating
casts; note the code maps type code 4 (`Hash128`) — not 3 — to `UInt64`. -/
def serialize_u64 (st : SerState) (v : Nat) : Except Error SerState :=
  match st.field with
  | none => .ok st
  | some (header, _) =>
      match header.type_code with
      | 16 => .ok (pushField st header (Value.UInt8 (v % 256)))
      | 1 => .ok (pushField st header (Value.UInt16 (v % 65536)))
      | 2 => .ok (pushField st header (Value.UInt32 (v % 4294967296)))
      | 4 => .ok (pushField st header (Value.UInt64 v))
      | _ => .error (.panic "not implemented")

/-- Serialize one leaf value (`null` serializes through `serialize_unit`,
which does nothing). -/
def serialize_leaf (st : SerState) : JLeaf → Except Error SerState
  | .str s => serialize_str st s
  | .num n => serialize_u64 st n
  | .jnull => .ok st

/-- Serialize the key/leaf pairs of a nested object. -/
def serialize_leaf_pairs (opts : SerializerOptions) (st : SerState) :
    List (String × JLeaf) → Except Error SerState
  | [] => .ok st
  | (k, v) :: rest => do
      let st1 ← serialize_key opts st k
      let st2 ← serialize_leaf st1 v
      serialize_leaf_pairs opts st2 rest

/-- Serialize one JSON value. -/
def serialize_jval (opts : SerializerOptions) (st : SerState) : JVal → Except Error SerState
  | .str s => serialize_str st s
  | .num n => serialize_u64 st n
  | .jnull => .ok st
  | .obj kvs => serialize_leaf_pairs opts st kvs

/-- Serialize the key/value pairs of a top-level object. -/
def serialize_pairs (opts : SerializerOptions) (st : SerState) :
    List (String × JVal) → Except Error SerState
  | [] => .ok st
  | (k, v) :: rest => do
      let st1 ← serialize_key opts st k
      let st2 ← serialize_jval opts st1 v
      serialize_pairs opts st2 rest

/-- The derived lexicographic `PartialOrd` of `FieldHeader`
(`type_code`, then `field_code`, then `sub_type`, the latter with
`None < Some` and field-wise string comparison). -/
def cmpOptStr : Option String → Option String → Ordering
  | none, none => .eq
  | none, some _ => .lt
  | some _, none => .gt
  | some a, some b => compare a b

def cmpSub (a b : SubTypeIC) : Ordering :=
  (compare a.current_key b.current_key).then
    ((cmpOptStr a.value b.value).then
      ((cmpOptStr a.currency b.currency).then (cmpOptStr a.issuer b.issuer)))

def cmpOptSub : Option SubTypeIC → Option SubTypeIC → Ordering
  | none, none => .eq
  | none, some _ => .lt
  | some _, none => .gt
  | some a, some b => cmpSub a b

def fieldCmp (a b : FieldHeader) : Ordering :=
  (compare a.type_code b.type_code).then
    ((compare a.field_code b.field_code).then (cmpOptSub a.sub_type b.sub_type))

def pairLt (a b : FieldHeader × Value) : Bool := fieldCmp a.1 b.1 = .lt

/-- Stable insertion used to model `Vec::sort_by` (a stable ascending
sort); an element is inserted after all elements not strictly greater. -/
def insertByLt (lt : α → α → Bool) (x : α) : List α → List α
  | [] => [x]
  | y :: ys => if lt x y then x :: y :: ys else y :: insertByLt lt x ys

/-- Stable sort by a strict comparison (left fold of stable insertions).
Any stable sort is uniquely determined by the comparator, so this models
`Vec::sort_by` exactly. -/
def sortByLt (lt : α → α → Bool) (l : List α) : List α :=
  l.foldl (fun acc x => insertByLt lt x acc) []

/-- Body bytes of the sorted field list: `field_header ‖ value_bytes` for
each pair. -/
def pairsBytes : List (FieldHeader × Value) → Except Error (List Nat)
  | [] => .ok []
  | (h, v) :: rest => do
      let vb ← v.to_bytes
      let tail ← pairsBytes rest
      .ok (h.to_bytes ++ vb ++ tail)

/-- `to_bytes_with_opts` from `ser.rs`: prefix, serialize, stable-sort the
accumulated pairs by the derived header ordering, emit each pair, suffix.
The input is the top-level JSON object (the only shape the crate feeds
the serializer), given as its key/value pairs in `BTreeMap` order. -/
def to_bytes_with_opts (opts : SerializerOptions) (kvs : List (String × JVal)) :
    Except Error (List Nat) := do
  let st ← serialize_pairs opts initSerState kvs
  let body ← pairsBytes (sortByLt pairLt st.fields)
  .ok (opts.pfx.getD [] ++ body ++ opts.sfx.getD [])

/-- `to_bytes` from `ser.rs`. -/
def to_bytes (kvs : List (String × JVal)) : Except Error (List Nat) :=
  to_bytes_with_opts {} kvs

/-- `to_bytes_for_signing` from `ser.rs`: prefix `0x53545800`, signing
fields only. -/
def to_bytes_for_signing (kvs : List (String × JVal)) : Except Error (List Nat) :=
  to_bytes_with_opts { pfx := some TRANSACTION_SIG, sfx := none, signing_fields_only := true } kvs

/-- `to_bytes_for_claim` from `ser.rs`: prefix `0x434C4D00`, signing fields
only. -/
def to_bytes_for_claim (kvs : List (String × JVal)) : Except Error (List Nat) :=
  to_bytes_with_opts { pfx := some PAYMENT_CHANNEL_CLAIM, sfx := none, signing_fields_only := true } kvs

/-! ### Reference description of the serializer's field accumulation

`convertTop` is the flat recursion the claims C2/C3/C10 are stated
against: walk the top-level pairs, drop non-serialized (and, when
filtering, non-signing) keys, convert each retained value.  The central
lemma below proves that on well-formed objects the serializer's threaded
state computes exactly this. -/

/-- Run the issued-currency builder over the pairs of a nested amount
object; returns the completed `(sub_type, value)` once `value`,
`currency` and `issuer` are all present. -/
def icBuild (sub : SubTypeIC) : List (String × JLeaf) → Option (SubTypeIC × Value)
  | [] => none
  | (k, .str v) :: rest =>
      let sub0 := { sub with current_key := k }
      let sub' :=
        if sub0.current_key = "value" then { sub0 with value := some v }
        else if sub0.current_key = "currency" then { sub0 with currency := some v }
        else if sub0.current_key = "issuer" then { sub0 with issuer := some v }
        else sub0
      match sub'.value, sub'.currency, sub'.issuer with
      | some vv, some cc, some ii =>
          some (sub', Value.Amount (Amount.IssuedCurrency vv cc ii))
      | _, _, _ => icBuild sub' rest
  | (_, _) :: _ => none

/-- Convert one retained value, given the field's resolved header. -/
def convertVal (header : FieldHeader) : JVal → Except Error (FieldHeader × Value)
  | .str v =>
      match header.type_code with
      | 8 => .ok (header, Value.AccountID v)
      | 7 => .ok (header, Value.Blob v)
      | 6 =>
          match parseU64 v with
          | none => .error (.invalidAmount v)
          | some i => .ok (header, Value.Amount (Amount.XRP i))
      | 5 => .ok (header, Value.Hash256 v)
      | 1 => do
          let i ← get_transaction_type v
          .ok (header, Value.Transaction (i % 65536))
      | 3 =>
          match parseU64 v with
          | none => .error (.invalidAmount v)
          | some i => .ok (header, Value.UInt64 i)
      | _ => .error (.panic "not implemented")
  | .num v =>
      match header.type_code with
      | 16 => .ok (header, Value.UInt8 (v % 256))
      | 1 => .ok (header, Value.UInt16 (v % 65536))
      | 2 => .ok (header, Value.UInt32 (v % 4294967296))
      | 4 => .ok (header, Value.UInt64 v)
      | _ => .error (.panic "not implemented")
  | .obj kvs =>
      match icBuild ⟨"", none, none, none⟩ kvs with
      | some (sub, val) => .ok ({ header with sub_type := some sub }, val)
      | none => .error (.panic "incomplete issued currency object")
  | .jnull => .error (.panic "null value outside the well-formed domain")

/-- Whether a top-level key is retained by the serializer. -/
def keptKey (signingOnly : Bool) (k : String) : Bool :=
  (is_serialized_field k).getD false &&
    (!signingOnly || (is_signing_field k).getD false)

/-- The reference field accumulation: `(field_header, value)` conversions
of the retained keys, in input order. -/
def convertTop (signingOnly : Bool) : List (String × JVal) → Except Error (List (FieldHeader × Value))
  | [] => .ok []
  | (k, v) :: rest =>
      if keptKey signingOnly k then do
        let fc_tc ← get_field_code_and_type_code k
        let p ← convertVal ⟨fc_tc.2, fc_tc.1, none⟩ v
        let tail ← convertTop signingOnly rest
        .ok (p :: tail)
      else convertTop signingOnly rest

/-- Well-formed values: strings, numbers, or — under a serialized
Amount-typed key — a complete issued-currency object with the keys
`currency`, `issuer`, `value` (the order `serde_json`'s sorted map always
produces) and string values.  This is the shape `serde_json::to_value`
yields for the transaction records of the crate, with `null` (serde's
image of an absent optional field) stripped. -/
def WFVal (k : String) (v : JVal) : Bool :=
  match v with
  | .str _ => true
  | .num _ => true
  | .jnull => false
  | .obj kvs =>
      (match get_field_code_and_type_code k with
       | .ok (_, tc) => tc == 6
       | .error _ => false) &&
      (is_serialized_field k).getD false &&
      decide (kvs.map Prod.fst = ["currency", "issuer", "value"]) &&
      kvs.all (fun p => match p.2 with | .str _ => true | _ => false)

/-- Well-formed top-level objects: well-formed values and distinct keys. -/
def WFObj (kvs : List (String × JVal)) : Bool :=
  kvs.all (fun p => WFVal p.1 p.2) && decide (kvs.map Prod.fst).Nodup


/-- Serializer-state invariant: a pending issued-currency builder is never
complete — the serializer pushes the field the moment its third component
arrives — so a later key cannot retroactively complete it. -/
def StIC (st : SerState) : Bool :=
  match st.field with
  | none => true
  | some (h, _) =>
      match h.sub_type with
      | none => true
      | some sub => !(sub.value.isSome && sub.currency.isSome && sub.issuer.isSome)

/-- The serializer state after consuming a `("Hash", _)` entry of a
transaction's JSON image: `"Hash"` (PascalCase) is not a registry name, so
the entry only updates the pending-field bookkeeping, independently of the
entry's value. -/
def hashStep (st : SerState) : SerState :=
  match st.field with
  | none => { st with field := none }
  | some (h, d) =>
      if h.type_code = 6 then
        match h.sub_type with
        | none =>
            { st with field := some ({ h with
                sub_type := some ⟨"Hash", none, none, none⟩ }, d) }
        | some s =>
            { st with field := some ({ h with
                sub_type := some { s with current_key := "Hash" } }, d) }
      else { st with field := none }

end SerdeXrpl

namespace XrplRs

open SerdeXrpl

/-! ### `xrpl-rs/src/types` and `transaction/types`: the transaction record -/

/-- `CurrencyAmount` from `types/mod.rs` (untagged: XRP drops as a decimal
string via `BigInt`, or an issued-currency object). -/
inductive CurrencyAmount where
  | XRP (drops : Nat)
  | IssuedCurrency (value : Decimal) (currency issuer : String)
deriving DecidableEq, Repr

/-- `TrustSetLimitAmount` from `transaction/types/mod.rs` (its serde field
names are the lower-case identifiers). -/
structure TrustSetLimitAmount where
  currency : String
  issuer : String
  value : Decimal
deriving DecidableEq, Repr

/-- `TransactionType` from `transaction/types/mod.rs`: the payload variants
(tagged by `TransactionType`, fields renamed to PascalCase). -/
inductive TransactionType where
  | Payment (amount : CurrencyAmount) (destination : String)
  | AccountSet (clear_flag : Option Nat) (domain : Option String)
      (email_hash : Option String) (message_key : Option String)
      (set_flag : Option Nat) (transfer_rate : Option Nat) (tick_size : Option Nat)
  | TrustSet (limit_amount : TrustSetLimitAmount)
      (quality_in : Option Nat) (quality_out : Option Nat)
  | PaymentChannelClaim (channel : String) (balance : Option Nat)
      (amount : Option Nat) (signature : Option String) (public_key : Option String)
  | PaymentChannelCreate (amount : Nat) (destination : String)
      (settle_delay : Nat) (public_key : String)
      (cancel_after : Option Nat) (destination_tag : Option Nat)
  | PaymentChannelFund
  | NFTokenMint (issuer : Option String) (token_taxon : Nat)
      (transfer_fee : Nat) (uri : String)
deriving DecidableEq, Repr

/-- `Transaction` from `transaction/types/mod.rs`.  `fee` is a `BigInt`
(u64 serialized as a decimal string), `sequence` and
`last_ledger_sequence` are `u32`, the `Option` fields have no
`skip_serializing_none`, so an absent one serializes as `null`. -/
structure Transaction where
  account : String
  fee : Nat
  sequence : Nat
  last_ledger_sequence : Nat
  signing_pub_key : String
  txn_signature : Option String
  flags : Option Nat
  tx : Option TransactionType
  hash : Option String
deriving DecidableEq, Repr

/-- Display of the `Decimal` model (`rust_decimal`'s string form: optional
sign, digits, a point when the scale is positive). -/
def decToString (d : Decimal) : String :=
  let digits := toString d.mantissa
  let digits :=
    if digits.length ≤ d.scale then
      String.mk (List.replicate (d.scale + 1 - digits.length) '0') ++ digits
    else digits
  let n := digits.length - d.scale
  (if d.neg then "-" else "") ++
    (if d.scale = 0 then digits else digits.take n ++ "." ++ digits.drop n)

def optStr : Option String → JVal
  | none => .jnull
  | some s => .str s

def optNum : Option Nat → JVal
  | none => .jnull
  | some n => .num n

/-- An optional `BigInt` serializes as a decimal string or `null`. -/
def optBigInt : Option Nat → JVal
  | none => .jnull
  | some n => .str (toString n)

/-- JSON image of a `CurrencyAmount` (`serde_json` sorts the three keys of
an issued-currency object alphabetically). -/
def camtJson : CurrencyAmount → JVal
  | .XRP drops => .str (toString drops)
  | .IssuedCurrency v c i =>
      .obj [("currency", .str c), ("issuer", .str i), ("value", .str (decToString v))]

/-- The key/value pairs of `serde_json::to_value(tx)` that sort strictly
before `"Hash"` (`serde_json`'s map is a `BTreeMap`, so keys appear in
sorted order; the flattened payload fields are merged in). -/
def txJsonPre (t : Transaction) : List (String × JVal) :=
  ("Account", .str t.account) ::
  (match t.tx with
   | none => []
   | some (.Payment amount destination) =>
       [("Amount", camtJson amount), ("Destination", .str destination)]
   | some (.AccountSet clear_flag domain email_hash _ _ _ _) =>
       [("ClearFlag", optNum clear_flag), ("Domain", optStr domain),
        ("EmailHash", optStr email_hash)]
   | some (.TrustSet _ _ _) => []
   | some (.PaymentChannelClaim channel balance amount _ _) =>
       [("Amount", optBigInt amount), ("Balance", optBigInt balance),
        ("Channel", .str channel)]
   | some (.PaymentChannelCreate amount destination _ _ cancel_after destination_tag) =>
       [("Amount", .str (toString amount)), ("CancelAfter", optNum cancel_after),
        ("Destination", .str destination), ("DestinationTag", optNum destination_tag)]
   | some .PaymentChannelFund => []
   | some (.NFTokenMint _ _ _ _) => []) ++
  [("Fee", .str (toString t.fee)), ("Flags", optNum t.flags)]

/-- The key/value pairs of `serde_json::to_value(tx)` that sort strictly
after `"Hash"`. -/
def txJsonPost (t : Transaction) : List (String × JVal) :=
  match t.tx with
  | none =>
      [("LastLedgerSequence", .num t.last_ledger_sequence),
       ("Sequence", .num t.sequence),
       ("SigningPubKey", .str t.signing_pub_key),
       ("TxnSignature", optStr t.txn_signature)]
  | some (.Payment _ _) =>
      [("LastLedgerSequence", .num t.last_ledger_sequence),
       ("Sequence", .num t.sequence),
       ("SigningPubKey", .str t.signing_pub_key),
       ("TransactionType", .str "Payment"),
       ("TxnSignature", optStr t.txn_signature)]
  | some (.AccountSet _ _ _ message_key set_flag transfer_rate tick_size) =>
      [("LastLedgerSequence", .num t.last_ledger_sequence),
       ("MessageKey", optStr message_key),
       ("Sequence", .num t.sequence),
       ("SetFlag", optNum set_flag),
       ("SigningPubKey", .str t.signing_pub_key),
       ("TickSize", optNum tick_size),
       ("TransactionType", .str "AccountSet"),
       ("TransferRate", optNum transfer_rate),
       ("TxnSignature", optStr t.txn_signature)]
  | some (.TrustSet limit_amount quality_in quality_out) =>
      [("LastLedgerSequence", .num t.last_ledger_sequence),
       ("LimitAmount", .obj [("currency", .str limit_amount.currency),
                             ("issuer", .str limit_amount.issuer),
                             ("value", .str (decToString limit_amount.value))]),
       ("QualityIn", optNum quality_in),
       ("QualityOut", optNum quality_out),
       ("Sequence", .num t.sequence),
       ("SigningPubKey", .str t.signing_pub_key),
       ("TransactionType", .str "TrustSet"),
       ("TxnSignature", optStr t.txn_signature)]
  | some (.PaymentChannelClaim _ _ _ signature public_key) =>
      [("LastLedgerSequence", .num t.last_ledger_sequence),
       ("PublicKey", optStr public_key),
       ("Sequence", .num t.sequence),
       ("Signature", optStr signature),
       ("SigningPubKey", .str t.signing_pub_key),
       ("TransactionType", .str "PaymentChannelClaim"),
       ("TxnSignature", optStr t.txn_signature)]
  | some (.PaymentChannelCreate _ _ settle_delay public_key _ _) =>
      [("LastLedgerSequence", .num t.last_ledger_sequence),
       ("PublicKey", .str public_key),
       ("Sequence", .num t.sequence),
       ("SettleDelay", .num settle_delay),
       ("SigningPubKey", .str t.signing_pub_key),
       ("TransactionType", .str "PaymentChannelCreate"),
       ("TxnSignature", optStr t.txn_signature)]
  | some .PaymentChannelFund =>
      [("LastLedgerSequence", .num t.last_ledger_sequence),
       ("Sequence", .num t.sequence),
       ("SigningPubKey", .str t.signing_pub_key),
       ("TransactionType", .str "PaymentChannelFund"),
       ("TxnSignature", optStr t.txn_signature)]
  | some (.NFTokenMint issuer token_taxon transfer_fee uri) =>
      [("Issuer", optStr issuer),
       ("LastLedgerSequence", .num t.last_ledger_sequence),
       ("Sequence", .num t.sequence),
       ("SigningPubKey", .str t.signing_pub_key),
       ("TokenTaxon", .num token_taxon),
       ("TransactionType", .str "NFTokenMint"),
       ("TransferFee", .num transfer_fee),
       ("TxnSignature", optStr t.txn_signature),
       ("Uri", .str uri)]

/-- `serde_json::to_value(tx)` as the sorted key/value pair list (the
`"Hash"` entry — PascalCase of the `hash` field — sits between the
`txJsonPre` and `txJsonPost` keys for every payload variant). -/
def txToJson (t : Transaction) : List (String × JVal) :=
  txJsonPre t ++ ("Hash", optStr t.hash) :: txJsonPost t

/-! ### `xrpl-rs/src/wallet/mod.rs`: signing -/

/-- `Wallet::sign` from `wallet/mod.rs`.  The cryptographic collaborators
are parameters of the model: `pubkey` is the 33-byte compressed
serialization of the wallet's secp256k1 public key (the crate's
`PublicKey::to_string()` is its lower-case hex), `sha512` models the
`sha2` crate, and `ecdsa_sign` models `secp.sign_ecdsa` on the 32-byte
message, returning the DER signature bytes (whose `Display` is lower-case
hex, uppercased by the code).  The two `.unwrap()` calls on the codec
results abort on error; the model propagates the codec error instead of
losing it. -/
def Wallet.sign (pubkey : List Nat) (sha512 : List Nat → List Nat)
    (ecdsa_sign : List Nat → List Nat) (tx : Transaction) :
    Except Error (Transaction × String) := do
  let tx1 := { tx with signing_pub_key := hexStrLower pubkey }
  let tx_blob_for_signing ← to_bytes_for_signing (txToJson tx1)
  let mhh := (sha512 tx_blob_for_signing).take 32
  let sig := ecdsa_sign mhh
  let tx2 := { tx1 with txn_signature := some (hexStrUpper sig) }
  let tx_blob ← to_bytes (txToJson tx2)
  let transaction_hash := (sha512 (TRANSACTION_ID ++ tx_blob)).take 32
  let tx3 := { tx2 with hash := some (hexStrUpper transaction_hash) }
  .ok (tx3, hexStrUpper tx_blob)

/-! ### `xrpl-rs/src/wallet/mod.rs`: autofill -/

/-- Errors of the wallet module (`wallet/mod.rs`). -/
inductive WalletError where
  | invalidSecret
  | xrplError
  | sequenceRequired
  | feeRequired
  | feeAboveMax
  | invalidDrops
  | secp256k1Error
  | lastLedgerSequenceRequired
deriving DecidableEq, Repr

/-- The wallet fields that `auto_fill_fields` reads and writes
(`sequence`, `fee`, `max_fee`, `ledger_offset`; the key pair is not
involved — the address it induces is passed separately). -/
structure WalletState where
  sequence : Option Nat
  fee : Option Nat
  max_fee : Nat
  ledger_offset : Nat
deriving DecidableEq, Repr

def DEFAULT_MAX_FEE : Nat := 100

def DEFAULT_LEDGER_OFFSET : Nat := 20

/-- The wallet state `Wallet::from_secret` constructs (no cached sequence
or fee, default maximum fee and ledger offset). -/
def fromSecretWalletState : WalletState :=
  ⟨none, none, DEFAULT_MAX_FEE, DEFAULT_LEDGER_OFFSET⟩

/-- The transport responses `auto_fill_fields` can fetch: the
`account_info` sequence, the `fee` response's `open_ledger_fee` (matched
against `CurrencyAmount::XRP`), and the `ledger` response's optional
`ledger_index`.  Modelled from the call sites; the network itself is out
of scope. -/
structure RpcEnv where
  account_sequence : Nat
  open_ledger_fee : CurrencyAmount
  ledger_index : Option Nat
deriving DecidableEq, Repr

/-- Result of `auto_fill_fields`: the (possibly partially) mutated
transaction and wallet, plus the returned error if any — the Rust
function mutates `tx` in place, so mutations made before an early
`return Err(..)` stay visible. -/
structure AutoFillResult where
  tx : Transaction
  wallet : WalletState
  err : Option WalletError
deriving DecidableEq, Repr

/-- `Wallet::auto_fill_fields` from `wallet/mod.rs`: default the flags to
`0x80000000`, set the account to the wallet address, fetch/assign/bump
the sequence, fetch the fee if not configured, assign it and enforce
`max_fee`, then set `last_ledger_sequence` from the fetched ledger index
plus the ledger offset.  (`Integer + u32` addition is modelled as plain
addition; the wrap-around of `u32` values is not exercised.) -/
def auto_fill_fields (address : String) (env : RpcEnv) (w : WalletState)
    (tx : Transaction) : AutoFillResult :=
  let tx := if tx.flags.isNone then { tx with flags := some 2147483648 } else tx
  let tx := { tx with account := address }
  let w := if w.sequence.isNone then { w with sequence := some env.account_sequence } else w
  match w.sequence with
  | none => ⟨tx, w, some .sequenceRequired⟩
  | some s =>
      let tx := { tx with sequence := s }
      let w := { w with sequence := some (s + 1) }
      let w :=
        if w.fee.isNone then
          match env.open_ledger_fee with
          | .XRP drops => { w with fee := some drops }
          | _ => w
        else w
      match w.fee with
      | none => ⟨tx, w, some .feeRequired⟩
      | some f =>
          let tx := { tx with fee := f }
          if w.max_fee < f then ⟨tx, w, some .feeAboveMax⟩
          else
            match env.ledger_index with
            | none => ⟨tx, w, some .lastLedgerSequenceRequired⟩
            | some idx =>
                ⟨{ tx with last_ledger_sequence := idx + w.ledger_offset }, w, none⟩

/-! ### `xrpl-rs/src/transports.rs`: HTTP transport -/

/-- `JsonRPCRequest` from `transports.rs`: the body struct has exactly the
two fields `method` and `params` — there is no `id` field (the `counter`
on the `HTTP` struct is never consulted by `send_request`). -/
structure JsonRPCRequest (P : Type) where
  method : String
  params : P
deriving DecidableEq, Repr

/-- The JSON keys of a serialized `JsonRPCRequest` (serde emits the struct
fields in declaration order). -/
def JsonRPCRequest.jsonKeys (_ : JsonRPCRequest P) : List String :=
  ["method", "params"]

/-- One HTTP POST as issued by the transport. -/
structure HttpPost (P : Type) where
  url : String
  content_type : String
  body : JsonRPCRequest (List P)
deriving DecidableEq, Repr

/-- `HTTP::send_request` from `transports.rs`: the requests posted by one
call — a single POST to the base url with `Content-Type:
application/json` whose body is `JsonRPCRequest { method, params:
vec![params] }`. -/
def HTTP.send_request (base_url method : String) (params : P) : List (HttpPost P) :=
  [{ url := base_url, content_type := "application/json",
     body := { method := method, params := [params] } }]

/-! ### `xrpl-rs/src/transports.rs`: WebSocket reader loop -/

/-- The reader-loop state: `pending_requests` (a `HashMap` from request id
to the pending call, modelled as an association list with unique ids;
the value retained here is the call's response-channel identifier) and
the list of subscription channels. -/
structure ReaderState where
  pending_requests : List (Nat × Nat)
  subscriptions : List Nat
deriving DecidableEq, Repr

/-- Parse outcome of one inbound frame:
`serde_json::from_slice::<WebsocketResponse<Value>>(&data).ok()` either
yields a response — whose `get_id()` is `Some` for a success frame and
the optional `id` for an error frame — or fails (`notResponse`). -/
inductive WsFrameParse where
  | response (id : Option Nat)
  | notResponse
deriving DecidableEq, Repr

/-- A delivery performed by the reader loop: the inbound frame sent into a
pending call's channel or into a subscription channel. -/
inductive Delivery where
  | toPending (channel : Nat)
  | toSubscription (channel : Nat)
deriving DecidableEq, Repr

/-- Outcome of one reader-loop iteration. -/
inductive ReaderOutcome where
  | panicked (msg : String)
  | delivered (st : ReaderState) (ds : List Delivery)
deriving DecidableEq, Repr

/-- One iteration of the reader loop in `WebSocketBuilder::build`: a frame
that parses as a response has its id looked up (`HashMap::get` — the
entry is *not* removed) and, when found, the frame is sent to that call's
channel; with no matching entry the frame is dropped; `get_id()` is
`unwrap`-ped, so an id-less error response panics; a frame that does not
parse as a response is sent (as a parsed event or parse error) to every
subscription channel. -/
def read_loop_step (st : ReaderState) (f : WsFrameParse) : ReaderOutcome :=
  match f with
  | .response none => .panicked "called Option::unwrap() on a None value"
  | .response (some i) =>
      match st.pending_requests.find? (fun p => p.1 = i) with
      | some p => .delivered st [.toPending p.2]
      | none => .delivered st []
  | .notResponse => .delivered st (st.subscriptions.map Delivery.toSubscription)

/-! ### Concrete inputs used by witnesses and counterexamples -/

/-- XRPL's account-zero address: base58-check image of twenty zero bytes. -/
def accountZero : String := "rrrrrrrrrrrrrrrrrrrrrhoLvTp"

/-- A 33-byte compressed-public-key stand-in containing a hex digit above
nine (so its lower- and upper-case hex differ). -/
def samplePubkey : List Nat := 3 :: 171 :: List.replicate 31 1

/-- Stand-in for the `sha2` SHA-512 (only its plumbing is at stake). -/
def dummySha512 : List Nat → List Nat := fun _ => List.replicate 64 0

/-- Stand-in for `secp.sign_ecdsa` (a two-byte DER stand-in). -/
def dummyEcdsa : List Nat → List Nat := fun _ => [1, 2]

/-- A concrete XRP payment from the account-zero address to itself. -/
def samplePayment : Transaction :=
  ⟨accountZero, 12, 7, 0, "", none, some 2147483648,
   some (.Payment (.XRP 5000) accountZero), none⟩

/-- Effective fee that `auto_fill_fields` will assign: the wallet's
configured fee, else the fetched `open_ledger_fee` when it is XRP. -/
def effectiveFee (w : WalletState) (env : RpcEnv) : Option Nat :=
  match w.fee with
  | some f => some f
  | none =>
      match env.open_ledger_fee with
      | .XRP drops => some drops
      | _ => none

end XrplRs

/-! ## Claim theorems -/

open SerdeXrpl XrplRs

/-- C5 (amended): the variable-length prefix is the single byte `L` for
`L ≤ 192`, `[193+((L−193)>>8), (L−193)&0xFF]` for `193 ≤ L ≤ 12480`,
`[241+((L−12481)>>16), ((L−12481)>>8)&0xFF, (L−12481)&0xFF]` for
`12481 ≤ L ≤ 918744`; for `L > 918744` the call panics with
`"overflow error"` (a process abort), not a returned `LengthOverflow`
codec error. -/
theorem c5_variable_length_encoding (L : Nat) :
    (L ≤ 192 → encode_variable_length L = .ok [L]) ∧
    (193 ≤ L → L ≤ 12480 →
      encode_variable_length L = .ok [193 + ((L - 193) >>> 8), (L - 193) &&& 255]) ∧
    (12481 ≤ L → L ≤ 918744 →
      encode_variable_length L =
        .ok [241 + ((L - 12481) >>> 16), ((L - 12481) >>> 8) &&& 255, (L - 12481) &&& 255]) ∧
    (918744 < L → encode_variable_length L = .error (.panic "overflow error")) := by
  have hs8 : ∀ n : Nat, n >>> 8 = n / 256 := fun n => by
    have := Nat.shiftRight_eq_div_pow n 8; simpa using this
  have hs16 : ∀ n : Nat, n >>> 16 = n / 65536 := fun n => by
    have := Nat.shiftRight_eq_div_pow n 16; simpa using this
  have hm : ∀ n : Nat, n &&& 255 = n % 256 := fun n => by
    have := Nat.and_pow_two_sub_one_eq_mod n 8; simpa using this
  refine ⟨fun h => ?_, fun h1 h2 => ?_, fun h1 h2 => ?_, fun h => ?_⟩ <;>
    simp only [encode_variable_length, hs8, hs16, hm]
  · rw [if_pos h]
  · rw [if_neg (by omega), if_pos h2]
  · rw [if_neg (by omega), if_neg (by omega), if_pos h2]
  · rw [if_neg (by omega), if_neg (by omega), if_neg (by omega)]

/-- C5 witness: the two boundary lengths 12480 and 12481. -/
theorem c5_variable_length_encoding_witness :
    (193 ≤ 12480 ∧ encode_variable_length 12480 =
      .ok [193 + ((12480 - 193) >>> 8), (12480 - 193) &&& 255]) ∧
    (12481 ≤ 918744 ∧ encode_variable_length 12481 =
      .ok [241 + ((12481 - 12481) >>> 16), ((12481 - 12481) >>> 8) &&& 255,
           (12481 - 12481) &&& 255]) :=
  ⟨⟨by decide, (c5_variable_length_encoding 12480).2.1 (by decide) (by decide)⟩,
   ⟨by decide, (c5_variable_length_encoding 12481).2.2.1 (by decide) (by decide)⟩⟩

/-- C5 counterexample: at `L = 918745` the code panics with
`"overflow error"`; it does not return the `LengthOverflow` codec error
the claim describes. -/
theorem c5_variable_length_encoding_counterexample :
    encode_variable_length 918745 = .error (.panic "overflow error") ∧
    encode_variable_length 918745 ≠ .error .lengthOverflow := by
  exact ⟨by rfl, by decide⟩

/-- C6 (amended): a 3-byte currency code is emitted as 12 zero bytes, the
3 ASCII bytes, 5 zero bytes; a 20-byte string is emitted as its literal
ASCII bytes (no hex decoding); any other byte length — in particular
every 40-character hex code — makes the call panic with
`"invalid currency code"` (a process abort), not return an
`InvalidCurrency` error. -/
theorem c6_currency_code (c : String) :
    ((asciiBytes c).length = 3 →
      encode_currency_code c = .ok (List.replicate 12 0 ++ asciiBytes c ++ List.replicate 5 0)) ∧
    ((asciiBytes c).length = 20 → encode_currency_code c = .ok (asciiBytes c)) ∧
    ((asciiBytes c).length ≠ 3 → (asciiBytes c).length ≠ 20 →
      encode_currency_code c = .error (.panic "invalid currency code")) ∧
    ((asciiBytes c).length = 40 →
      encode_currency_code c = .error (.panic "invalid currency code")) := by
  refine ⟨fun h => ?_, fun h => ?_, fun h1 h2 => ?_, fun h => ?_⟩ <;>
    simp only [encode_currency_code]
  · rw [if_pos h]
  · rw [if_neg (by omega), if_pos h]
  · rw [if_neg h1, if_neg h2]
  · rw [if_neg (by omega), if_neg (by omega)]

/-- C6 witness: the 3-ASCII code `"USD"` and a 21-byte code. -/
theorem c6_currency_code_witness :
    ((asciiBytes "USD").length = 3 ∧
      encode_currency_code "USD" =
        .ok (List.replicate 12 0 ++ asciiBytes "USD" ++ List.replicate 5 0)) ∧
    ((asciiBytes "USDUSDUSDUSDUSDUSDUSD").length ≠ 3 ∧
      encode_currency_code "USDUSDUSDUSDUSDUSDUSD" = .error (.panic "invalid currency code")) :=
  ⟨⟨by decide, (c6_currency_code "USD").1 (by decide)⟩,
   ⟨by decide, (c6_currency_code "USDUSDUSDUSDUSDUSDUSD").2.2.1 (by decide) (by decide)⟩⟩

/-- C6 counterexample: the 40-hex-character code
`"0000000000000000000000005553440000000000"` panics instead of being
hex-decoded to its 20 literal bytes, and a malformed code (`"ZZZZ"`)
panics instead of returning the `InvalidCurrency` codec error. -/
theorem c6_currency_code_counterexample :
    encode_currency_code "0000000000000000000000005553440000000000" =
      .error (.panic "invalid currency code") ∧
    encode_currency_code "0000000000000000000000005553440000000000" ≠
      .ok [0, 0, 0, 0, 0, 0, 0, 0, 0, 0, 0, 0, 0x55, 0x53, 0x44, 0, 0, 0, 0, 0] ∧
    encode_currency_code "ZZZZ" ≠ .error .invalidCurrency := by
  exact ⟨by rfl, by decide, by decide⟩

/-- C9 (amended): each call through the HTTP transport issues exactly one
POST with `Content-Type: application/json`, whose JSON body has exactly
the fields `method` (the RPC method name) and `params` (a one-element
array holding the params object) — there is no `id` field in the body
(the `counter` on the `HTTP` struct is unused by `send_request`). -/
theorem c9_http_request (P : Type) (base_url method : String) (params : P) :
    HTTP.send_request base_url method params =
      [{ url := base_url, content_type := "application/json",
         body := { method := method, params := [params] } }] ∧
    (HTTP.send_request base_url method params).length = 1 ∧
    ((HTTP.send_request base_url method params).map (fun p => p.body.jsonKeys)) =
      [["method", "params"]] ∧
    ¬ "id" ∈ (JsonRPCRequest.mk method [params]).jsonKeys := by
  refine ⟨rfl, rfl, rfl, ?_⟩
  simp [JsonRPCRequest.jsonKeys]

/-- C9 witness: a concrete call. -/
theorem c9_http_request_witness :
    HTTP.send_request "http://localhost:5005" "account_info" (0 : Nat) =
      [{ url := "http://localhost:5005", content_type := "application/json",
         body := { method := "account_info", params := [0] } }] ∧
    ¬ "id" ∈ (JsonRPCRequest.mk "account_info" [(0 : Nat)]).jsonKeys :=
  ⟨(c9_http_request Nat "http://localhost:5005" "account_info" 0).1,
   (c9_http_request Nat "http://localhost:5005" "account_info" 0).2.2.2⟩

/-- C9 counterexample: the body of the one POST issued for a concrete call
carries only the keys `method` and `params`; the claim's `id` field is
absent. -/
theorem c9_http_request_counterexample :
    ((HTTP.send_request "http://localhost:5005" "fee" (0 : Nat)).map
      (fun p => p.body.jsonKeys)) = [["method", "params"]] ∧
    ¬ "id" ∈ ["method", "params"] := by
  exact ⟨rfl, by decide⟩

/-- C8 (amended): a frame parsing as a response with id `i`: when a pending
call for `i` exists the frame is delivered to that call's channel and the
entry is left in the map (it is looked up with `get`, not removed — so a
later frame with the same id would be delivered to the same channel
again); when no pending call exists the frame is dropped.  A response
frame without an id makes the reader panic (`get_id().unwrap()`).  A
frame that does not parse as a response is broadcast to every
subscription channel. -/
theorem c8_reader_dispatch (st : ReaderState) (f : WsFrameParse) :
    (∀ i pr, f = .response (some i) →
      st.pending_requests.find? (fun p => p.1 = i) = some pr →
      read_loop_step st f = .delivered st [.toPending pr.2]) ∧
    (∀ i, f = .response (some i) →
      st.pending_requests.find? (fun p => p.1 = i) = none →
      read_loop_step st f = .delivered st []) ∧
    (f = .response none →
      read_loop_step st f = .panicked "called Option::unwrap() on a None value") ∧
    (f = .notResponse →
      read_loop_step st f = .delivered st (st.subscriptions.map Delivery.toSubscription)) := by
  refine ⟨fun i pr hf hfind => ?_, fun i hf hfind => ?_, fun hf => ?_, fun hf => ?_⟩ <;>
    subst hf
  · simp [read_loop_step, hfind]
  · simp [read_loop_step, hfind]
  · simp [read_loop_step]
  · simp [read_loop_step]

/-- C8 witness: a pending call with id 1 on channel 7 and one subscription
channel 5; the response for id 1 is delivered to channel 7 with the map
left unchanged. -/
theorem c8_reader_dispatch_witness :
    (ReaderState.mk [(1, 7)] [5]).pending_requests.find? (fun p => p.1 = 1) = some (1, 7) ∧
    read_loop_step ⟨[(1, 7)], [5]⟩ (.response (some 1)) =
      .delivered ⟨[(1, 7)], [5]⟩ [.toPending 7] :=
  ⟨by decide,
   (c8_reader_dispatch ⟨[(1, 7)], [5]⟩ (.response (some 1))).1 1 (1, 7) rfl (by decide)⟩

/-- C8 counterexample: after a response for pending id 1 is processed, the
pending entry is still in the map (the claim says the entry is removed,
which is what would make the channel single-use). -/
theorem c8_reader_dispatch_counterexample :
    read_loop_step ⟨[(1, 7)], []⟩ (.response (some 1)) =
      .delivered ⟨[(1, 7)], []⟩ [.toPending 7] ∧
    (ReaderState.mk [(1, 7)] []).pending_requests.find? (fun p => p.1 = 1) = some (1, 7) := by
  exact ⟨by rfl, by rfl⟩

/-- C4 counterexample: with a valid issuer, the representable positive
value `0.5` panics (`floor(log10) < 0`, so `to_u32().unwrap()` aborts)
instead of encoding with exponent byte `E = −1 − 15 + 97`; and the
claim's extreme value `1e-96` is not even parseable by
`Decimal::from_str` (scientific notation is rejected), so the encode call
returns `InvalidIssuedCurrencyAmount` rather than the claimed 48-byte
image. -/
theorem c4_issued_currency_counterexample :
    encode_issued_currency_amount "0.5" "USD" accountZero =
      .error (.panic "called Option::unwrap() on a None value") ∧
    encode_issued_currency_amount "1e-96" "USD" accountZero =
      .error (.invalidIssuedCurrencyAmount "1e-96") := by
  exact ⟨by rfl, by rfl⟩

/-- C7: `auto_fill_fields` sets `flags` to `0x80000000` exactly when unset
(otherwise leaves it unchanged); it assigns the effective fee to
`tx.fee` and returns `FeeAboveMax` precisely when that fee exceeds
`max_fee` (default 100 drops); and on success it sets
`last_ledger_sequence` to the fetched ledger index plus `ledger_offset`
(default 20). -/
theorem c7_auto_fill_fields (address : String) (env : RpcEnv) (w : WalletState)
    (tx : Transaction) :
    (tx.flags = none → (auto_fill_fields address env w tx).tx.flags = some 2147483648) ∧
    (∀ fl, tx.flags = some fl → (auto_fill_fields address env w tx).tx.flags = some fl) ∧
    (∀ f, effectiveFee w env = some f →
      (auto_fill_fields address env w tx).tx.fee = f ∧
      ((auto_fill_fields address env w tx).err = some .feeAboveMax ↔ w.max_fee < f)) ∧
    ((auto_fill_fields address env w tx).err = none →
      ∃ idx, env.ledger_index = some idx ∧
        (auto_fill_fields address env w tx).tx.last_ledger_sequence = idx + w.ledger_offset) ∧
    DEFAULT_MAX_FEE = 100 ∧ DEFAULT_LEDGER_OFFSET = 20 ∧
    fromSecretWalletState.max_fee = 100 ∧ fromSecretWalletState.ledger_offset = 20 := by
  rcases htx : tx.flags with _ | fl <;>
  rcases hw : w.sequence with _ | s <;>
  rcases hf : w.fee with _ | f0 <;>
  rcases hol : env.open_ledger_fee with d | ⟨v, cu, iss⟩ <;>
  rcases hl : env.ledger_index with _ | idx <;>
  refine ⟨?_, ?_, ?_, ?_, rfl, rfl, rfl, rfl⟩ <;>
  simp only [auto_fill_fields, effectiveFee, htx, hw, hf, hol, hl, Option.isNone_none,
    Option.isNone_some, if_true, if_false, Bool.false_eq_true] <;>
  first
  | (split_ifs <;> simp_all)
  | simp_all

/-- C7 witness: autofill with the default wallet state, a fetched XRP fee
of 10 drops and ledger index 1000 on a transaction with unset flags. -/
theorem c7_auto_fill_fields_witness :
    (Transaction.mk "" 0 0 0 "" none none none none).flags = none ∧
    (auto_fill_fields "r" ⟨9, .XRP 10, some 1000⟩ fromSecretWalletState
      ⟨"", 0, 0, 0, "", none, none, none, none⟩).tx.flags = some 2147483648 ∧
    effectiveFee fromSecretWalletState ⟨9, .XRP 10, some 1000⟩ = some 10 ∧
    (auto_fill_fields "r" ⟨9, .XRP 10, some 1000⟩ fromSecretWalletState
      ⟨"", 0, 0, 0, "", none, none, none, none⟩).tx.fee = 10 ∧
    ((auto_fill_fields "r" ⟨9, .XRP 10, some 1000⟩ fromSecretWalletState
      ⟨"", 0, 0, 0, "", none, none, none, none⟩).err = none →
      ∃ idx, (RpcEnv.mk 9 (.XRP 10) (some 1000)).ledger_index = some idx ∧
        (auto_fill_fields "r" ⟨9, .XRP 10, some 1000⟩ fromSecretWalletState
          ⟨"", 0, 0, 0, "", none, none, none, none⟩).tx.last_ledger_sequence =
            idx + fromSecretWalletState.ledger_offset) := by
  have h := c7_auto_fill_fields "r" ⟨9, .XRP 10, some 1000⟩ fromSecretWalletState
    ⟨"", 0, 0, 0, "", none, none, none, none⟩
  exact ⟨rfl, h.1 rfl, rfl, (h.2.2.1 10 rfl).1, h.2.2.2.1⟩

/-! ### Generic helper lemmas -/

theorem exceptBind_ok {α β γ : Type} (a : β) (f : β → Except α γ) :
    (Except.ok a : Except α β) >>= f = f a := rfl

theorem exceptBind_err {α β γ : Type} (e : α) (f : β → Except α γ) :
    (Except.error e : Except α β) >>= f = Except.error e := rfl

/-! ### Arithmetic facts for the issued-currency encoder -/

theorem digitCountAux_eq_log (fuel : Nat) : ∀ n, n ≤ fuel → digitCountAux fuel n = Nat.log 10 n := by
  induction fuel with
  | zero =>
      intro n hn
      have : n = 0 := by omega
      subst this
      simp [digitCountAux]
  | succ fuel ih =>
      intro n hn
      unfold digitCountAux
      by_cases h10 : n < 10
      · simp only [h10, if_true]
        exact (Nat.log_eq_zero_iff.mpr (Or.inl h10)).symm
      · simp only [h10, if_false]
        rw [ih (n / 10) (by omega), Nat.log_div_base]
        have hpos : 0 < Nat.log 10 n := Nat.log_pos (by norm_num) (by omega)
        omega

theorem floorLog10_eq_log (n : Nat) : floorLog10 n = Nat.log 10 n :=
  digitCountAux_eq_log n n le_rfl

theorem roundHalfEven_ge (n q : Nat) : n / q ≤ roundHalfEven n q := by
  simp only [roundHalfEven]
  split_ifs <;> omega

theorem roundHalfEven_le (n q : Nat) : roundHalfEven n q ≤ n / q + 1 := by
  simp only [roundHalfEven]
  split_ifs <;> omega

theorem rescaledMantissa_bounds (m : Nat) (hm : 0 < m) :
    10 ^ 15 ≤ rescaledMantissa m (Nat.log 10 m) ∧
    rescaledMantissa m (Nat.log 10 m) ≤ 10 ^ 16 := by
  have hlo : 10 ^ Nat.log 10 m ≤ m := Nat.pow_log_le_self 10 hm.ne'
  have hhi : m < 10 ^ (Nat.log 10 m + 1) := Nat.lt_pow_succ_log_self (by norm_num) m
  unfold rescaledMantissa
  by_cases hd : Nat.log 10 m ≤ 15
  · rw [if_pos hd]
    constructor
    · calc 10 ^ 15 = 10 ^ Nat.log 10 m * 10 ^ (15 - Nat.log 10 m) := by
            rw [← pow_add]; congr 1; omega
        _ ≤ m * 10 ^ (15 - Nat.log 10 m) :=
            Nat.mul_le_mul_right _ hlo
    · have hm' : m ≤ 10 ^ (Nat.log 10 m + 1) - 1 := by omega
      calc m * 10 ^ (15 - Nat.log 10 m)
          ≤ (10 ^ (Nat.log 10 m + 1) - 1) * 10 ^ (15 - Nat.log 10 m) :=
            Nat.mul_le_mul_right _ hm'
        _ ≤ 10 ^ (Nat.log 10 m + 1) * 10 ^ (15 - Nat.log 10 m) :=
            Nat.mul_le_mul_right _ (by omega)
        _ = 10 ^ 16 := by rw [← pow_add]; congr 1; omega
  · rw [if_neg hd]
    have hq : (0 : Nat) < 10 ^ (Nat.log 10 m - 15) := Nat.pos_pow_of_pos _ (by norm_num)
    constructor
    · have h1 : 10 ^ 15 ≤ m / 10 ^ (Nat.log 10 m - 15) := by
        have : 10 ^ Nat.log 10 m / 10 ^ (Nat.log 10 m - 15) ≤ m / 10 ^ (Nat.log 10 m - 15) :=
          Nat.div_le_div_right hlo
        rwa [Nat.pow_div (by omega) (by norm_num), show Nat.log 10 m - (Nat.log 10 m - 15) = 15 by omega] at this
      exact le_trans h1 (roundHalfEven_ge _ _)
    · have h2 : m / 10 ^ (Nat.log 10 m - 15) < 10 ^ 16 := by
        rw [Nat.div_lt_iff_lt_mul hq, ← pow_add]
        calc m < 10 ^ (Nat.log 10 m + 1) := hhi
          _ ≤ 10 ^ (16 + (Nat.log 10 m - 15)) := Nat.pow_le_pow_right (by norm_num) (by omega)
      have := roundHalfEven_le m (10 ^ (Nat.log 10 m - 15))
      omega

theorem beBytes_eight (v : Nat) :
    beBytes 8 v = [v / 256 ^ 7 % 256, v / 256 ^ 6 % 256, v / 256 ^ 5 % 256,
      v / 256 ^ 4 % 256, v / 256 ^ 3 % 256, v / 256 ^ 2 % 256,
      v / 256 ^ 1 % 256, v / 256 ^ 0 % 256] := rfl


/-- C4 (amended): for a parseable amount, a decodable issuer and a valid
currency code, a zero value encodes as `0x8000000000000000` followed by
currency and issuer; a positive value at least 1 (`scale ≤ floor(log10)`)
whose pre-rescale `e = floor(log10)` is at most 15 has its mantissa
rescaled into `[10^15, 10^16]` (`10^16` reachable only by rounding of
inputs with more than 16 significant digits), bit 63 and the
positive-sign bit 62 set (`byte0 & 0xC0 = 0xC0`), and the exponent byte
`E = e − 15 + 97 = 82 + e` overlaid as `byte0 |= E>>2`,
`byte1 |= (E&3)<<6`; the 8 amount bytes are followed by the 20-byte
currency code and 20-byte issuer.  Values in `(0,1)` or with `e > 15`
panic instead (see the counterexample), and the claim's extreme
exponents `1e-96` / `9.999999999999999e+80` lie outside `rust_decimal`'s
representable range. -/
theorem c4_issued_currency_amount (amount currency issuer : String) (d : Decimal)
    (addr cur : List Nat)
    (hparse : parseDecimal amount = some d)
    (haddr : decode_base58 issuer [0] = .ok addr)
    (hcur : encode_currency_code currency = .ok cur) :
    (d.mantissa = 0 →
      encode_issued_currency_amount amount currency issuer =
        .ok ((128 :: List.replicate 7 0) ++ cur ++ addr)) ∧
    (0 < d.mantissa → d.neg = false →
      d.scale ≤ Nat.log 10 d.mantissa → Nat.log 10 d.mantissa ≤ 15 + d.scale →
      ∃ m', m' = rescaledMantissa d.mantissa (Nat.log 10 d.mantissa) ∧
        10 ^ 15 ≤ m' ∧ m' ≤ 10 ^ 16 ∧
        encode_issued_currency_amount amount currency issuer =
          .ok (((192 ||| (82 + (Nat.log 10 d.mantissa - d.scale)) / 4) ::
                (m' / 2 ^ 48 ||| (82 + (Nat.log 10 d.mantissa - d.scale)) % 4 * 64) ::
                (beBytes 8 m').drop 2) ++ cur ++ addr) ∧
        (192 ||| (82 + (Nat.log 10 d.mantissa - d.scale)) / 4) &&& 192 = 192) := by
  constructor
  · intro h0
    simp only [encode_issued_currency_amount, haddr, hparse, exceptBind_ok, h0,
      if_pos rfl, hcur]
    rfl
  · intro hm hneg hsc h15
    obtain ⟨hb1, hb2⟩ := rescaledMantissa_bounds d.mantissa hm
    have hm64 : ¬ 2 ^ 64 ≤ rescaledMantissa d.mantissa (Nat.log 10 d.mantissa) := by
      have : (10 : Nat) ^ 16 < 2 ^ 64 := by norm_num
      omega
    refine ⟨rescaledMantissa d.mantissa (Nat.log 10 d.mantissa), rfl, hb1, hb2, ?_, ?_⟩
    · simp only [encode_issued_currency_amount, haddr, hparse, floorLog10_eq_log,
        exceptBind_ok]
      rw [if_neg hm.ne']
      rw [if_neg (by simp [hneg])]
      rw [if_neg (by omega)]
      rw [if_neg (by omega)]
      rw [if_neg hm64]
      rw [beBytes_eight]
      simp only [exceptBind_ok, hcur, hneg, Bool.false_eq_true, if_false]
      have hd7 : rescaledMantissa d.mantissa (Nat.log 10 d.mantissa) / 256 ^ 7 % 256 = 0 := by
        rw [Nat.div_eq_of_lt (by norm_num; omega)]
      have hd6 : rescaledMantissa d.mantissa (Nat.log 10 d.mantissa) / 256 ^ 6 % 256 =
          rescaledMantissa d.mantissa (Nat.log 10 d.mantissa) / 2 ^ 48 := by
        apply Nat.mod_eq_of_lt
        rw [Nat.div_lt_iff_lt_mul (by norm_num)]
        calc rescaledMantissa d.mantissa (Nat.log 10 d.mantissa) ≤ 10 ^ 16 := hb2
          _ < 256 * 256 ^ 6 := by norm_num
      have he : 97 + (Nat.log 10 d.mantissa - d.scale) - 15 =
          82 + (Nat.log 10 d.mantissa - d.scale) := by omega
      rw [hd7, hd6, he, show ((0 : Nat) ||| 128 ||| 64) = 192 from by decide]
      rfl
    · have he4 : (82 + (Nat.log 10 d.mantissa - d.scale)) / 4 < 32 := by omega
      set x := (82 + (Nat.log 10 d.mantissa - d.scale)) / 4 with hx
      clear_value x
      interval_cases x <;> decide

/-- C4 witness: the fixture value `7072.8 USD` issued by the account-zero
address (the amount bytes are `D55920AC93914000`). -/
theorem c4_issued_currency_amount_witness :
    parseDecimal "7072.8" = some ⟨false, 70728, 1⟩ ∧
    decode_base58 accountZero [0] = .ok (List.replicate 20 0) ∧
    encode_currency_code "USD" =
      .ok (List.replicate 12 0 ++ asciiBytes "USD" ++ List.replicate 5 0) ∧
    (0 < (70728 : Nat) ∧ (1 : Nat) ≤ Nat.log 10 70728 ∧ Nat.log 10 70728 ≤ 15 + 1) ∧
    (∃ m', m' = rescaledMantissa (Decimal.mk false 70728 1).mantissa
        (Nat.log 10 (Decimal.mk false 70728 1).mantissa) ∧
      10 ^ 15 ≤ m' ∧ m' ≤ 10 ^ 16 ∧
      encode_issued_currency_amount "7072.8" "USD" accountZero =
        .ok (((192 ||| (82 + (Nat.log 10 (Decimal.mk false 70728 1).mantissa -
                (Decimal.mk false 70728 1).scale)) / 4) ::
              (m' / 2 ^ 48 ||| (82 + (Nat.log 10 (Decimal.mk false 70728 1).mantissa -
                (Decimal.mk false 70728 1).scale)) % 4 * 64) ::
              (beBytes 8 m').drop 2) ++
            (List.replicate 12 0 ++ asciiBytes "USD" ++ List.replicate 5 0) ++
            List.replicate 20 0) ∧
      (192 ||| (82 + (Nat.log 10 (Decimal.mk false 70728 1).mantissa -
        (Decimal.mk false 70728 1).scale)) / 4) &&& 192 = 192) := by
  have hlog : Nat.log 10 (Decimal.mk false 70728 1).mantissa = 4 := by
    rw [← floorLog10_eq_log]
    rfl
  refine ⟨by rfl, by rfl, by rfl, ⟨by decide, by rw [show Nat.log 10 70728 =
    Nat.log 10 (Decimal.mk false 70728 1).mantissa from rfl, hlog]; omega,
    by rw [show Nat.log 10 70728 = Nat.log 10 (Decimal.mk false 70728 1).mantissa from rfl,
      hlog]; omega⟩, ?_⟩
  exact (c4_issued_currency_amount "7072.8" "USD" accountZero ⟨false, 70728, 1⟩
    (List.replicate 20 0)
    (List.replicate 12 0 ++ asciiBytes "USD" ++ List.replicate 5 0)
    (by rfl) (by rfl) (by rfl)).2 (by decide) (by decide)
    (by rw [hlog]; decide) (by rw [hlog]; decide)

/-! ### Stable-sort lemmas -/

theorem insertByLt_perm {α : Type} (lt : α → α → Bool) (x : α) (l : List α) :
    (insertByLt lt x l).Perm (x :: l) := by
  induction l with
  | nil => simp [insertByLt]
  | cons y ys ih =>
      simp only [insertByLt]
      split_ifs with h
      · exact List.Perm.refl _
      · exact (ih.cons y).trans (List.Perm.swap x y ys)

theorem foldl_insert_perm {α : Type} (lt : α → α → Bool) :
    ∀ (l acc : List α),
      (l.foldl (fun acc x => insertByLt lt x acc) acc).Perm (acc ++ l) := by
  intro l
  induction l with
  | nil => intro acc; simp
  | cons x xs ih =>
      intro acc
      have h1 := ih (insertByLt lt x acc)
      have h2 : (insertByLt lt x acc ++ xs).Perm ((x :: acc) ++ xs) :=
        (insertByLt_perm lt x acc).append_right xs
      have h3 : ((x :: acc) ++ xs).Perm (acc ++ x :: xs) := List.perm_middle.symm
      exact (h1.trans h2).trans h3

theorem sortByLt_perm {α : Type} (lt : α → α → Bool) (l : List α) :
    (sortByLt lt l).Perm l := by
  simpa using foldl_insert_perm lt l []

theorem insertByLt_append {α : Type} (lt : α → α → Bool) (x : α) (l : List α)
    (h : ∀ y ∈ l, lt x y = false) : insertByLt lt x l = l ++ [x] := by
  induction l with
  | nil => rfl
  | cons y ys ih =>
      simp only [insertByLt]
      rw [if_neg (by simp [h y (by simp)]), ih (fun z hz => h z (by simp [hz]))]
      rfl

theorem foldl_insert_eq_append {α : Type} (lt : α → α → Bool) :
    ∀ (l acc : List α),
      (∀ a ∈ acc, ∀ b ∈ l, lt b a = false) →
      l.Pairwise (fun a b => lt a b = true) →
      (∀ a ∈ l, ∀ b ∈ l, lt a b = true → lt b a = false) →
      l.foldl (fun acc x => insertByLt lt x acc) acc = acc ++ l := by
  intro l
  induction l with
  | nil => intro acc _ _ _; simp
  | cons x xs ih =>
      intro acc hacc hsorted hasym
      have hins : insertByLt lt x acc = acc ++ [x] :=
        insertByLt_append lt x acc (fun y hy => hacc y hy x (by simp))
      have hrec : (xs.foldl (fun acc x => insertByLt lt x acc) (acc ++ [x])) =
          (acc ++ [x]) ++ xs := by
        apply ih
        · intro a ha b hb
          rcases List.mem_append.mp ha with ha' | ha'
          · exact hacc a ha' b (by simp [hb])
          · have hax : a = x := by simpa using ha'
            subst hax
            have hxb : lt a b = true := (List.pairwise_cons.mp hsorted).1 b hb
            exact hasym a (by simp) b (by simp [hb]) hxb
        · exact (List.pairwise_cons.mp hsorted).2
        · intro a ha b hb hab
          exact hasym a (by simp [ha]) b (by simp [hb]) hab
      simp only [List.foldl_cons, hins, hrec]
      simp

theorem sortByLt_eq_of_sorted {α : Type} (lt : α → α → Bool) (l : List α)
    (hsorted : l.Pairwise (fun a b => lt a b = true))
    (hasym : ∀ a ∈ l, ∀ b ∈ l, lt a b = true → lt b a = false) :
    sortByLt lt l = l := by
  simpa using foldl_insert_eq_append lt l [] (by simp) hsorted hasym

theorem insertByLt_pairwise {α : Type} (lt : α → α → Bool) (x : α) (l : List α)
    (hl : l.Pairwise (fun a b => lt a b = true))
    (htot : ∀ y ∈ l, lt x y = true ∨ lt y x = true)
    (htrans : ∀ b ∈ l, ∀ c ∈ l, lt x b = true → lt b c = true → lt x c = true) :
    (insertByLt lt x l).Pairwise (fun a b => lt a b = true) := by
  induction l with
  | nil => simp [insertByLt]
  | cons y ys ih =>
      obtain ⟨hy, hys⟩ := List.pairwise_cons.mp hl
      simp only [insertByLt]
      split_ifs with h
      · refine List.pairwise_cons.mpr ⟨?_, hl⟩
        intro z hz
        rcases List.mem_cons.mp hz with hz' | hz'
        · subst hz'; exact h
        · exact htrans y (by simp) z (by simp [hz']) h (hy z hz')
      · refine List.pairwise_cons.mpr ⟨?_, ?_⟩
        · intro z hz
          have := (insertByLt_perm lt x ys).mem_iff.mp hz
          rcases List.mem_cons.mp this with hz' | hz'
          · subst hz'
            rcases htot y (by simp) with hxy | hyx
            · rw [hxy] at h; exact absurd rfl h
            · exact hyx
          · exact hy z hz'
        · exact ih hys (fun z hz => htot z (by simp [hz]))
            (fun b hb c hc => htrans b (by simp [hb]) c (by simp [hc]))

theorem foldl_insert_pairwise {α : Type} (lt : α → α → Bool) (L : List α)
    (htot : ∀ a ∈ L, ∀ b ∈ L, a ≠ b → lt a b = true ∨ lt b a = true)
    (htrans : ∀ a ∈ L, ∀ b ∈ L, ∀ c ∈ L, lt a b = true → lt b c = true → lt a c = true) :
    ∀ (l acc : List α), (acc ++ l).Nodup → (∀ a ∈ acc ++ l, a ∈ L) →
      acc.Pairwise (fun a b => lt a b = true) →
      (l.foldl (fun acc x => insertByLt lt x acc)
        acc).Pairwise (fun a b => lt a b = true) := by
  intro l
  induction l with
  | nil => intro acc _ _ hacc; simpa using hacc
  | cons x xs ih =>
      intro acc hnd hmem hacc
      simp only [List.foldl_cons]
      have hperm : (insertByLt lt x acc ++ xs).Perm (acc ++ x :: xs) :=
        ((insertByLt_perm lt x acc).append_right xs).trans List.perm_middle.symm
      have hxacc : x ∉ acc := by
        rcases List.nodup_append.mp hnd with ⟨_, _, hdisj⟩
        intro hx
        exact hdisj hx (by simp)
      apply ih
      · exact hperm.symm.nodup hnd
      · intro a ha
        exact hmem a (hperm.subset ha)
      · apply insertByLt_pairwise lt x acc hacc
        · intro y hy
          exact htot x (hmem x (by simp)) y (hmem y (by simp [hy]))
            (fun he => hxacc (he ▸ hy))
        · intro b hb c hc
          exact htrans x (hmem x (by simp)) b (hmem b (by simp [hb]))
            c (hmem c (by simp [hc]))

/-! ### Registry facts -/

theorem get_ok_facts (k : String) (fc tc : Nat)
    (h : get_field_code_and_type_code k = .ok (fc, tc)) :
    ∃ f ∈ FIELDS, f.1 = k ∧ f.2.nth = fc ∧ fc < 256 ∧
      ∃ t ∈ TYPES, t.1 = f.2.type ∧ t.2 = tc := by
  unfold get_field_code_and_type_code at h
  rcases hf : FIELDS.find? (fun f => f.1 = k) with _ | f <;> rw [hf] at h
  · simp at h
  dsimp only at h
  rcases ht : TYPES.find? (fun t => t.1 = f.2.type) with _ | t <;> rw [ht] at h
  · simp at h
  dsimp only at h
  by_cases h1 : f.2.nth ≥ 256
  · rw [if_pos h1] at h; simp at h
  rw [if_neg h1] at h
  by_cases h2 : t.2 ≥ 256
  · rw [if_pos h2] at h; simp at h
  rw [if_neg h2] at h
  simp only [Except.ok.injEq, Prod.mk.injEq] at h
  have hkf : f.1 = k := by
    have := List.find?_some hf
    simpa using this
  have hkt : t.1 = f.2.type := by
    have := List.find?_some ht
    simpa using this
  exact ⟨f, List.mem_of_find?_eq_some hf, hkf, h.1, by omega, t,
    List.mem_of_find?_eq_some ht, hkt, h.2⟩

theorem get_tc_range (k : String) (fc tc : Nat)
    (h : get_field_code_and_type_code k = .ok (fc, tc)) :
    tc = 1 ∨ tc = 2 ∨ tc = 3 ∨ tc = 4 ∨ tc = 5 ∨ tc = 6 ∨ tc = 7 ∨ tc = 8 ∨ tc = 16 := by
  obtain ⟨f, _, _, _, _, t, htm, _, htc⟩ := get_ok_facts k fc tc h
  have hall : ∀ t ∈ TYPES, t.2 = 1 ∨ t.2 = 2 ∨ t.2 = 3 ∨ t.2 = 4 ∨ t.2 = 5 ∨
      t.2 = 6 ∨ t.2 = 7 ∨ t.2 = 8 ∨ t.2 = 16 := by decide
  rw [← htc]
  exact hall t htm

theorem get_fc_lt (k : String) (fc tc : Nat)
    (h : get_field_code_and_type_code k = .ok (fc, tc)) : fc < 256 := by
  obtain ⟨f, _, _, _, hlt, _⟩ := get_ok_facts k fc tc h
  exact hlt

theorem registry_header_inj (k1 k2 : String) (fc1 tc1 fc2 tc2 : Nat)
    (h1 : get_field_code_and_type_code k1 = .ok (fc1, tc1))
    (h2 : get_field_code_and_type_code k2 = .ok (fc2, tc2))
    (htc : tc1 = tc2) (hfc : fc1 = fc2) : k1 = k2 := by
  obtain ⟨f1, hm1, hk1, hn1, _, t1, htm1, hty1, htc1⟩ := get_ok_facts k1 fc1 tc1 h1
  obtain ⟨f2, hm2, hk2, hn2, _, t2, htm2, hty2, htc2⟩ := get_ok_facts k2 fc2 tc2 h2
  have htype_inj : ∀ t1 ∈ TYPES, ∀ t2 ∈ TYPES, t1.2 = t2.2 → t1.1 = t2.1 := by decide
  have hfield_inj : ∀ f1 ∈ FIELDS, ∀ f2 ∈ FIELDS,
      f1.2.type = f2.2.type → f1.2.nth = f2.2.nth → f1.1 = f2.1 := by decide
  have hty : f1.2.type = f2.2.type := by
    rw [← hty1, ← hty2]
    exact htype_inj t1 htm1 t2 htm2 (by omega)
  have hnth : f1.2.nth = f2.2.nth := by omega
  rw [← hk1, ← hk2]
  exact hfield_inj f1 hm1 f2 hm2 hty hnth

/-! ### Header-comparison bridge -/

theorem fieldCmp_lt_iff (a b : FieldHeader)
    (ha : a.field_code < 256) (hb : b.field_code < 256)
    (hne : a.type_code * 256 + a.field_code ≠ b.type_code * 256 + b.field_code) :
    (fieldCmp a b = .lt) ↔
      a.type_code * 256 + a.field_code < b.type_code * 256 + b.field_code := by
  unfold fieldCmp
  rcases Nat.lt_trichotomy a.type_code b.type_code with h | h | h
  · rw [Nat.compare_eq_lt.mpr h]
    simp only [Ordering.then]
    constructor
    · intro _
      calc a.type_code * 256 + a.field_code < a.type_code * 256 + 256 := by omega
        _ ≤ b.type_code * 256 := by
            have : a.type_code + 1 ≤ b.type_code := h
            calc a.type_code * 256 + 256 = (a.type_code + 1) * 256 := by ring
              _ ≤ b.type_code * 256 := Nat.mul_le_mul_right 256 this
        _ ≤ b.type_code * 256 + b.field_code := by omega
    · intro _; trivial
  · rw [Nat.compare_eq_eq.mpr h]
    simp only [Ordering.then]
    rcases Nat.lt_trichotomy a.field_code b.field_code with h' | h' | h'
    · rw [Nat.compare_eq_lt.mpr h']
      simp only [Ordering.then]
      constructor
      · intro _; omega
      · intro _; trivial
    · exact absurd (by omega) hne
    · rw [Nat.compare_eq_gt.mpr h']
      simp only [Ordering.then]
      constructor
      · intro hcon; exact absurd hcon (by simp)
      · intro hcon; omega
  · rw [Nat.compare_eq_gt.mpr h]
    simp only [Ordering.then]
    constructor
    · intro hcon; exact absurd hcon (by simp)
    · intro hcon
      have : b.type_code * 256 + b.field_code < a.type_code * 256 + a.field_code := by
        calc b.type_code * 256 + b.field_code < b.type_code * 256 + 256 := by omega
          _ ≤ a.type_code * 256 := by
              have : b.type_code + 1 ≤ a.type_code := h
              calc b.type_code * 256 + 256 = (b.type_code + 1) * 256 := by ring
                _ ≤ a.type_code * 256 := Nat.mul_le_mul_right 256 this
          _ ≤ a.type_code * 256 + a.field_code := by omega
      omega

/-! ### The serializer computes the reference field accumulation -/

theorem state_field_none_eta (st : SerState) (h : st.field = none) :
    ({ st with field := none } : SerState) = st := by
  cases st
  simp_all

theorem wf_obj_decompose (kvs' : List (String × JLeaf))
    (hkeys : kvs'.map Prod.fst = ["currency", "issuer", "value"])
    (hstr : kvs'.all (fun p => match p.2 with | .str _ => true | _ => false) = true) :
    ∃ c i v, kvs' = [("currency", .str c), ("issuer", .str i), ("value", .str v)] := by
  have hlen : kvs'.length = 3 := by
    have := congrArg List.length hkeys
    simpa using this
  rcases kvs' with _ | ⟨⟨k1, v1⟩, _ | ⟨⟨k2, v2⟩, _ | ⟨⟨k3, v3⟩, _ | ⟨p4, rest⟩⟩⟩⟩ <;>
    simp only [List.length] at hlen <;> try omega
  simp only [List.map_cons, List.map_nil, List.cons.injEq, and_true] at hkeys
  obtain ⟨e1, e2, e3⟩ := hkeys
  subst e1; subst e2; subst e3
  simp only [List.all_cons, List.all_nil, Bool.and_eq_true] at hstr
  cases v1 with
  | str s1 =>
      cases v2 with
      | str s2 =>
          cases v3 with
          | str s3 => exact ⟨s1, s2, s3, rfl⟩
          | num n => simp at hstr
          | jnull => simp at hstr
      | num n => simp at hstr
      | jnull => simp at hstr
  | num n => simp at hstr
  | jnull => simp at hstr

theorem skip_obj_noop (opts : SerializerOptions) (st : SerState) (c i v : String)
    (hf : st.field = none) :
    serialize_leaf_pairs opts st
      [("currency", .str c), ("issuer", .str i), ("value", .str v)] = .ok st := by
  have h1 : serialize_key opts st "currency" = .ok { st with field := none } := by
    simp [serialize_key, hf, show is_serialized_field "currency" = none from rfl]
  have h2 : serialize_key opts st "issuer" = .ok { st with field := none } := by
    simp [serialize_key, hf, show is_serialized_field "issuer" = none from rfl]
  have h3 : serialize_key opts st "value" = .ok { st with field := none } := by
    simp [serialize_key, hf, show is_serialized_field "value" = none from rfl]
  rw [state_field_none_eta st hf] at h1 h2 h3
  simp [serialize_leaf_pairs, h1, h2, h3, serialize_leaf, serialize_str, hf, exceptBind_ok]

theorem serialize_amount_obj (opts : SerializerOptions) (st : SerState) (fc : Nat)
    (c i v : String) :
    serialize_leaf_pairs opts
      { st with field := some (⟨6, fc, none⟩, Value.NotPresent) }
      [("currency", .str c), ("issuer", .str i), ("value", .str v)] =
    .ok ({ st with
           field := none
           fields := st.fields ++ [(⟨6, fc, some ⟨"value", some v, some c, some i⟩⟩,
             Value.Amount (Amount.IssuedCurrency v c i))] }) := by
  rfl

theorem pushField_set (st : SerState) (x : FieldHeader × Value) (h : FieldHeader)
    (val : Value) (hf : st.field = none) :
    pushField { st with field := some x } h val =
      { st with fields := st.fields ++ [(h, val)] } := by
  cases st
  simp_all [pushField]

theorem serialize_key_kept (opts : SerializerOptions) (st : SerState) (k : String)
    (fc tc : Nat) (hget : get_field_code_and_type_code k = .ok (fc, tc))
    (hser : (is_serialized_field k).getD false = true)
    (hsign : opts.signing_fields_only = false ∨ (is_signing_field k).getD false = true)
    (hf : st.field = none) :
    serialize_key opts st k =
      .ok { st with field := some (⟨tc, fc, none⟩, Value.NotPresent) } := by
  rcases hsign with h | h <;>
    simp [serialize_key, hf, hser, hget, exceptBind_ok, h]

theorem serialize_key_skipped (opts : SerializerOptions) (st : SerState) (k : String)
    (hkeep : keptKey opts.signing_fields_only k = false)
    (hf : st.field = none) :
    serialize_key opts st k = .ok st := by
  cases hser : (is_serialized_field k).getD false with
  | false =>
      simp [serialize_key, hf, hser, state_field_none_eta st hf]
  | true =>
      rw [keptKey, hser] at hkeep
      simp only [Bool.true_and] at hkeep
      have h1 : opts.signing_fields_only = true := by
        cases hso : opts.signing_fields_only
        · rw [hso] at hkeep; simp at hkeep
        · rfl
      have h2 : (is_signing_field k).getD false = false := by
        cases hsg : (is_signing_field k).getD false
        · rfl
        · rw [hsg] at hkeep; simp [h1] at hkeep
      simp [serialize_key, hf, hser, h1, h2]

theorem serialize_jval_skipped (opts : SerializerOptions) (st : SerState) (k : String)
    (v : JVal) (hwf : WFVal k v = true) (hf : st.field = none) :
    serialize_jval opts st v = .ok st := by
  cases v with
  | str s => simp [serialize_jval, serialize_str, hf]
  | num n => simp [serialize_jval, serialize_u64, hf]
  | jnull => simp [WFVal] at hwf
  | obj kvs =>
      simp only [WFVal, Bool.and_eq_true, decide_eq_true_eq] at hwf
      obtain ⟨⟨⟨_, _⟩, hkeys⟩, hstr⟩ := hwf
      obtain ⟨c, i, v, hv⟩ := wf_obj_decompose kvs hkeys hstr
      subst hv
      exact skip_obj_noop opts st c i v hf

theorem serialize_jval_installed (opts : SerializerOptions) (st : SerState)
    (k : String) (fc tc : Nat) (v : JVal)
    (hget : get_field_code_and_type_code k = .ok (fc, tc))
    (hwf : WFVal k v = true) (hf : st.field = none) :
    serialize_jval opts { st with field := some (⟨tc, fc, none⟩, Value.NotPresent) } v =
      (convertVal ⟨tc, fc, none⟩ v).map
        (fun p => { st with fields := st.fields ++ [p] }) := by
  cases v with
  | jnull => simp [WFVal] at hwf
  | num n =>
      rcases get_tc_range k fc tc hget with h | h | h | h | h | h | h | h | h <;> subst h <;>
        simp [serialize_jval, serialize_u64, convertVal, pushField, Except.map, hf]
  | str s =>
      rcases get_tc_range k fc tc hget with h | h | h | h | h | h | h | h | h <;> subst h
      · cases hgt : get_transaction_type s <;>
          simp [serialize_jval, serialize_str, convertVal, pushField, Except.map,
            exceptBind_ok, exceptBind_err, hgt, hf]
      · simp [serialize_jval, serialize_str, convertVal, Except.map]
      · cases hp : parseU64 s <;>
          simp [serialize_jval, serialize_str, convertVal, pushField, Except.map, hp, hf]
      · simp [serialize_jval, serialize_str, convertVal, Except.map]
      · simp [serialize_jval, serialize_str, convertVal, pushField, Except.map, hf]
      · cases hp : parseU64 s <;>
          simp [serialize_jval, serialize_str, convertVal, pushField, Except.map, hp, hf]
      · simp [serialize_jval, serialize_str, convertVal, pushField, Except.map, hf]
      · simp [serialize_jval, serialize_str, convertVal, pushField, Except.map, hf]
      · simp [serialize_jval, serialize_str, convertVal, Except.map]
  | obj kvs =>
      simp only [WFVal, Bool.and_eq_true, decide_eq_true_eq] at hwf
      obtain ⟨⟨⟨hm, _⟩, hkeys⟩, hstr⟩ := hwf
      rw [hget] at hm
      simp only [beq_iff_eq] at hm
      subst hm
      obtain ⟨c, i, v, hv⟩ := wf_obj_decompose kvs hkeys hstr
      subst hv
      have hL := serialize_amount_obj opts st fc c i v
      have hR : convertVal ⟨6, fc, none⟩
          (JVal.obj [("currency", .str c), ("issuer", .str i), ("value", .str v)]) =
          .ok (⟨6, fc, some ⟨"value", some v, some c, some i⟩⟩,
            Value.Amount (Amount.IssuedCurrency v c i)) := rfl
      simp [serialize_jval, hL, hR, Except.map, hf]

theorem serialize_pairs_convertTop (opts : SerializerOptions) (kvs : List (String × JVal))
    (st : SerState) (hwf : kvs.all (fun p => WFVal p.1 p.2) = true) (hf : st.field = none) :
    serialize_pairs opts st kvs =
      (convertTop opts.signing_fields_only kvs).map
        (fun ps => { st with fields := st.fields ++ ps }) := by
  induction kvs generalizing st with
  | nil =>
      simp [serialize_pairs, convertTop, Except.map]
  | cons p rest ih =>
      obtain ⟨k, v⟩ := p
      simp only [List.all_cons, Bool.and_eq_true] at hwf
      obtain ⟨hwf1, hwfr⟩ := hwf
      cases hkeep : keptKey opts.signing_fields_only k with
      | false =>
          have hk := serialize_key_skipped opts st k hkeep hf
          have hv := serialize_jval_skipped opts st k v hwf1 hf
          simp only [serialize_pairs, hk, exceptBind_ok, hv]
          simp only [convertTop, hkeep]
          simp only [Bool.false_eq_true, if_false]
          exact ih st hwfr hf
      | true =>
          have hser : (is_serialized_field k).getD false = true := by
            cases h : (is_serialized_field k).getD false
            · rw [keptKey, h] at hkeep; simp at hkeep
            · rfl
          have hsign : opts.signing_fields_only = false ∨
              (is_signing_field k).getD false = true := by
            cases hso : opts.signing_fields_only
            · exact Or.inl rfl
            · right
              rw [keptKey, hser, hso] at hkeep
              simpa using hkeep
          cases hget : get_field_code_and_type_code k with
          | error e =>
              have hk : serialize_key opts st k = .error e := by
                rcases hsign with h | h <;>
                  simp [serialize_key, hf, hser, hget, exceptBind_err, h]
              simp [serialize_pairs, hk, exceptBind_err, convertTop, hkeep, hget,
                Except.map]
          | ok fctc =>
              obtain ⟨fc, tc⟩ := fctc
              have hk := serialize_key_kept opts st k fc tc hget hser hsign hf
              have hv := serialize_jval_installed opts st k fc tc v hget hwf1 hf
              cases hcv : convertVal ⟨tc, fc, none⟩ v with
              | error e =>
                  rw [hcv] at hv
                  simp [serialize_pairs, hk, exceptBind_ok, hv, exceptBind_err,
                    convertTop, hkeep, hget, hcv, Except.map]
              | ok q =>
                  rw [hcv] at hv
                  have hst2 : SerState.field { st with fields := st.fields ++ [q] } = none := by
                    simpa using hf
                  simp only [serialize_pairs, hk, exceptBind_ok, hv, Except.map]
                  rw [ih _ hwfr hst2]
                  cases htail : convertTop opts.signing_fields_only rest with
                  | error e =>
                      simp [convertTop, hkeep, hget, hcv, htail, exceptBind_ok,
                        exceptBind_err, Except.map]
                  | ok tail =>
                      simp [convertTop, hkeep, hget, hcv, htail, exceptBind_ok,
                        Except.map]

theorem compare_string_self (s : String) : compare s s = .eq := by
  simp [compare, compareOfLessAndEq]

theorem cmpOptStr_self (x : Option String) : cmpOptStr x x = .eq := by
  cases x <;> simp [cmpOptStr, compare_string_self]

theorem cmpSub_self (s : SubTypeIC) : cmpSub s s = .eq := by
  simp [cmpSub, compare_string_self, cmpOptStr_self, Ordering.then]

theorem cmpOptSub_self (x : Option SubTypeIC) : cmpOptSub x x = .eq := by
  cases x <;> simp [cmpOptSub, cmpSub_self]

theorem fieldCmp_self (a : FieldHeader) : fieldCmp a a = .eq := by
  simp [fieldCmp, Nat.compare_eq_eq.mpr rfl, Ordering.then, cmpOptSub_self]

theorem pairLt_irrefl (a : FieldHeader × Value) : pairLt a a = false := by
  simp [pairLt, fieldCmp_self]

theorem convertVal_header (h : FieldHeader) (v : JVal) (q : FieldHeader × Value)
    (hcv : convertVal h v = .ok q) :
    q.1.type_code = h.type_code ∧ q.1.field_code = h.field_code := by
  cases v with
  | str s =>
      simp only [convertVal] at hcv
      split at hcv
      · simp only [Except.ok.injEq] at hcv; subst hcv; exact ⟨rfl, rfl⟩
      · simp only [Except.ok.injEq] at hcv; subst hcv; exact ⟨rfl, rfl⟩
      · split at hcv
        · simp at hcv
        · simp only [Except.ok.injEq] at hcv; subst hcv; exact ⟨rfl, rfl⟩
      · simp only [Except.ok.injEq] at hcv; subst hcv; exact ⟨rfl, rfl⟩
      · cases hg : get_transaction_type s <;> rw [hg] at hcv
        · rw [exceptBind_err] at hcv; simp at hcv
        · rw [exceptBind_ok] at hcv
          simp only [Except.ok.injEq] at hcv; subst hcv; exact ⟨rfl, rfl⟩
      · split at hcv
        · simp at hcv
        · simp only [Except.ok.injEq] at hcv; subst hcv; exact ⟨rfl, rfl⟩
      · simp at hcv
  | num n =>
      simp only [convertVal] at hcv
      split at hcv <;>
        first
        | (simp only [Except.ok.injEq] at hcv; subst hcv; exact ⟨rfl, rfl⟩)
        | simp at hcv
  | jnull => simp [convertVal] at hcv
  | obj kvs =>
      simp only [convertVal] at hcv
      split at hcv
      · simp only [Except.ok.injEq] at hcv; subst hcv; exact ⟨rfl, rfl⟩
      · simp at hcv

theorem convertTop_mem (so : Bool) :
    ∀ (kvs : List (String × JVal)) (ps : List (FieldHeader × Value)),
      convertTop so kvs = .ok ps →
      ∀ q ∈ ps, ∃ k, k ∈ kvs.map Prod.fst ∧ keptKey so k = true ∧
        get_field_code_and_type_code k = .ok (q.1.field_code, q.1.type_code) := by
  intro kvs
  induction kvs with
  | nil =>
      intro ps hct q hq
      simp only [convertTop, Except.ok.injEq] at hct
      subst hct
      simp at hq
  | cons p rest ih =>
      intro ps hct q hq
      obtain ⟨k, v⟩ := p
      rw [convertTop] at hct
      by_cases hkeep : keptKey so k = true
      · rw [if_pos hkeep] at hct
        cases hget : get_field_code_and_type_code k <;> rw [hget] at hct
        · rw [exceptBind_err] at hct; simp at hct
        · rw [exceptBind_ok] at hct
          rename_i fctc
          obtain ⟨fc, tc⟩ := fctc
          cases hcv : convertVal ⟨tc, fc, none⟩ v <;> rw [hcv] at hct
          · rw [exceptBind_err] at hct; simp at hct
          · rw [exceptBind_ok] at hct
            rename_i p0
            cases htail : convertTop so rest <;> rw [htail] at hct
            · rw [exceptBind_err] at hct; simp at hct
            · rw [exceptBind_ok] at hct
              rename_i tail
              simp only [Except.ok.injEq] at hct
              subst hct
              rcases List.mem_cons.mp hq with hq' | hq'
              · subst hq'
                obtain ⟨h1, h2⟩ := convertVal_header _ _ _ hcv
                refine ⟨k, by simp, hkeep, ?_⟩
                rw [h1, h2]
                exact hget
              · obtain ⟨k', hk1, hk2, hk3⟩ := ih tail htail q hq'
                exact ⟨k', by simp [hk1], hk2, hk3⟩
      · rw [if_neg hkeep] at hct
        obtain ⟨k', hk1, hk2, hk3⟩ := ih ps hct q hq
        exact ⟨k', by simp [hk1], hk2, hk3⟩

theorem convertTop_complete (so : Bool) :
    ∀ (kvs : List (String × JVal)) (ps : List (FieldHeader × Value)),
      convertTop so kvs = .ok ps →
      ∀ kv ∈ kvs, keptKey so kv.1 = true →
        ∃ q ∈ ps, get_field_code_and_type_code kv.1 =
          .ok (q.1.field_code, q.1.type_code) := by
  intro kvs
  induction kvs with
  | nil => intro ps _ kv hkv; simp at hkv
  | cons p rest ih =>
      intro ps hct kv hkv hkeepkv
      obtain ⟨k, v⟩ := p
      rw [convertTop] at hct
      by_cases hkeep : keptKey so k = true
      · rw [if_pos hkeep] at hct
        cases hget : get_field_code_and_type_code k <;> rw [hget] at hct
        · rw [exceptBind_err] at hct; simp at hct
        · rw [exceptBind_ok] at hct
          rename_i fctc
          obtain ⟨fc, tc⟩ := fctc
          cases hcv : convertVal ⟨tc, fc, none⟩ v <;> rw [hcv] at hct
          · rw [exceptBind_err] at hct; simp at hct
          · rw [exceptBind_ok] at hct
            rename_i p0
            cases htail : convertTop so rest <;> rw [htail] at hct
            · rw [exceptBind_err] at hct; simp at hct
            · rw [exceptBind_ok] at hct
              rename_i tail
              simp only [Except.ok.injEq] at hct
              subst hct
              rcases List.mem_cons.mp hkv with hkv' | hkv'
              · subst hkv'
                obtain ⟨h1, h2⟩ := convertVal_header _ _ _ hcv
                refine ⟨p0, by simp, ?_⟩
                rw [h1, h2]
                exact hget
              · obtain ⟨q, hq1, hq2⟩ := ih tail htail kv hkv' hkeepkv
                exact ⟨q, by simp [hq1], hq2⟩
      · rw [if_neg hkeep] at hct
        rcases List.mem_cons.mp hkv with hkv' | hkv'
        · subst hkv'
          rw [hkeepkv] at hkeep
          exact absurd rfl hkeep
        · exact ih ps hct kv hkv' hkeepkv

theorem convertTop_pairwise (so : Bool) :
    ∀ (kvs : List (String × JVal)) (ps : List (FieldHeader × Value)),
      (kvs.map Prod.fst).Nodup →
      convertTop so kvs = .ok ps →
      ps.Pairwise (fun a b =>
        a.1.type_code * 256 + a.1.field_code ≠
          b.1.type_code * 256 + b.1.field_code) := by
  intro kvs
  induction kvs with
  | nil =>
      intro ps _ hct
      simp only [convertTop, Except.ok.injEq] at hct
      subst hct
      exact List.Pairwise.nil
  | cons p rest ih =>
      intro ps hnd hct
      obtain ⟨k, v⟩ := p
      simp only [List.map_cons, List.nodup_cons] at hnd
      obtain ⟨hknot, hndr⟩ := hnd
      rw [convertTop] at hct
      by_cases hkeep : keptKey so k = true
      · rw [if_pos hkeep] at hct
        cases hget : get_field_code_and_type_code k <;> rw [hget] at hct
        · rw [exceptBind_err] at hct; simp at hct
        · rw [exceptBind_ok] at hct
          rename_i fctc
          obtain ⟨fc, tc⟩ := fctc
          cases hcv : convertVal ⟨tc, fc, none⟩ v <;> rw [hcv] at hct
          · rw [exceptBind_err] at hct; simp at hct
          · rw [exceptBind_ok] at hct
            rename_i p0
            cases htail : convertTop so rest <;> rw [htail] at hct
            · rw [exceptBind_err] at hct; simp at hct
            · rw [exceptBind_ok] at hct
              rename_i tail
              simp only [Except.ok.injEq] at hct
              subst hct
              refine List.pairwise_cons.mpr ⟨?_, ih tail hndr htail⟩
              intro q hq heq
              obtain ⟨h1, h2⟩ := convertVal_header _ _ _ hcv
              obtain ⟨k', hk1, hk2, hk3⟩ := convertTop_mem so rest tail htail q hq
              have hfcp : p0.1.field_code < 256 := by
                have := get_fc_lt k p0.1.field_code p0.1.type_code (by rw [h1, h2]; exact hget)
                exact this
              have hfcq : q.1.field_code < 256 := get_fc_lt k' _ _ hk3
              have htceq : p0.1.type_code = q.1.type_code := by omega
              have hfceq : p0.1.field_code = q.1.field_code := by omega
              have hkk : k = k' := by
                refine registry_header_inj k k' p0.1.field_code p0.1.type_code
                  q.1.field_code q.1.type_code ?_ hk3 htceq hfceq
                rw [h1, h2]; exact hget
              exact hknot (hkk ▸ hk1)
      · rw [if_neg hkeep] at hct
        exact ih ps hndr hct

/-- C3: on every well-formed input object the codec emits the accumulated
`(field_header, value)` pairs sorted by `(type_code, field_code)`
ascending — the emitted header sequence is strictly increasing in the
combined key `type_code * 256 + field_code`, sorting the emitted sequence
again is idempotent — and encoding is deterministic: two invocations on
equal input yield identical output. -/
theorem c3_sorted_fields (opts : SerializerOptions) (kvs : List (String × JVal))
    (st : SerState) (hwf : WFObj kvs = true)
    (hrun : serialize_pairs opts initSerState kvs = .ok st) :
    (sortByLt pairLt st.fields).Pairwise (fun a b =>
        a.1.type_code * 256 + a.1.field_code <
          b.1.type_code * 256 + b.1.field_code) ∧
    sortByLt pairLt (sortByLt pairLt st.fields) = sortByLt pairLt st.fields ∧
    (∀ kvs2 : List (String × JVal), kvs2 = kvs →
      to_bytes_with_opts opts kvs2 = to_bytes_with_opts opts kvs) := by
  simp only [WFObj, Bool.and_eq_true, decide_eq_true_eq] at hwf
  obtain ⟨hall, hnd⟩ := hwf
  rw [serialize_pairs_convertTop opts kvs initSerState hall rfl] at hrun
  cases hct : convertTop opts.signing_fields_only kvs with
  | error e => rw [hct] at hrun; simp [Except.map] at hrun
  | ok ps =>
      rw [hct] at hrun
      simp only [Except.map, Except.ok.injEq] at hrun
      have hfields : st.fields = ps := by
        rw [← hrun]
        simp [initSerState]
      have hne : ps.Pairwise (fun a b =>
          a.1.type_code * 256 + a.1.field_code ≠
            b.1.type_code * 256 + b.1.field_code) :=
        convertTop_pairwise opts.signing_fields_only kvs ps hnd hct
      have hfc : ∀ q ∈ ps, q.1.field_code < 256 := by
        intro q hq
        obtain ⟨k, _, _, h3⟩ := convertTop_mem opts.signing_fields_only kvs ps hct q hq
        exact get_fc_lt k _ _ h3
      have hndps : ps.Nodup :=
        hne.imp (fun {a b} hab heq => hab (by rw [heq]))
      have hforall : ∀ a ∈ ps, ∀ b ∈ ps, a ≠ b →
          a.1.type_code * 256 + a.1.field_code ≠
            b.1.type_code * 256 + b.1.field_code := by
        intro a ha b hb hab
        exact hne.forall (fun x y hxy => hxy.symm) ha hb hab
      have htot : ∀ a ∈ ps, ∀ b ∈ ps, a ≠ b →
          pairLt a b = true ∨ pairLt b a = true := by
        intro a ha b hb hab
        have hneab := hforall a ha b hb hab
        rcases Nat.lt_or_ge (a.1.type_code * 256 + a.1.field_code)
          (b.1.type_code * 256 + b.1.field_code) with h | h
        · left
          simp only [pairLt, decide_eq_true_eq]
          exact (fieldCmp_lt_iff a.1 b.1 (hfc a ha) (hfc b hb) hneab).mpr h
        · right
          simp only [pairLt, decide_eq_true_eq]
          exact (fieldCmp_lt_iff b.1 a.1 (hfc b hb) (hfc a ha) (Ne.symm hneab)).mpr
            (by omega)
      have htrans : ∀ a ∈ ps, ∀ b ∈ ps, ∀ c ∈ ps,
          pairLt a b = true → pairLt b c = true → pairLt a c = true := by
        intro a ha b hb c hc hab hbc
        by_cases heab : a = b
        · subst heab; rw [pairLt_irrefl] at hab; exact absurd hab (by simp)
        by_cases hebc : b = c
        · subst hebc; rw [pairLt_irrefl] at hbc; exact absurd hbc (by simp)
        simp only [pairLt, decide_eq_true_eq] at hab hbc ⊢
        have h1 := (fieldCmp_lt_iff a.1 b.1 (hfc a ha) (hfc b hb)
          (hforall a ha b hb heab)).mp hab
        have h2 := (fieldCmp_lt_iff b.1 c.1 (hfc b hb) (hfc c hc)
          (hforall b hb c hc hebc)).mp hbc
        exact (fieldCmp_lt_iff a.1 c.1 (hfc a ha) (hfc c hc) (by omega)).mpr (by omega)
      have hsorted : (sortByLt pairLt ps).Pairwise (fun a b => pairLt a b = true) := by
        have h := foldl_insert_pairwise pairLt ps htot htrans ps []
          (by simpa using hndps) (by intro a ha; simpa using ha) List.Pairwise.nil
        simpa [sortByLt] using h
      have hmem_sorted : ∀ a ∈ sortByLt pairLt ps, a ∈ ps :=
        fun a ha => (sortByLt_perm pairLt ps).subset ha
      have hstrict : (sortByLt pairLt ps).Pairwise (fun a b =>
          a.1.type_code * 256 + a.1.field_code <
            b.1.type_code * 256 + b.1.field_code) := by
        refine List.Pairwise.imp_of_mem ?_ hsorted
        intro a b ha hb hab
        by_cases heab : a = b
        · subst heab; rw [pairLt_irrefl] at hab; exact absurd hab (by simp)
        · simp only [pairLt, decide_eq_true_eq] at hab
          exact (fieldCmp_lt_iff a.1 b.1 (hfc a (hmem_sorted a ha))
            (hfc b (hmem_sorted b hb))
            (hforall a (hmem_sorted a ha) b (hmem_sorted b hb) heab)).mp hab
      have hasym : ∀ a ∈ sortByLt pairLt ps, ∀ b ∈ sortByLt pairLt ps,
          pairLt a b = true → pairLt b a = false := by
        intro a ha b hb hab
        by_cases heab : a = b
        · subst heab; rw [pairLt_irrefl] at hab; exact absurd hab (by simp)
        · have hne' := hforall a (hmem_sorted a ha) b (hmem_sorted b hb) heab
          simp only [pairLt, decide_eq_true_eq] at hab
          have h1 := (fieldCmp_lt_iff a.1 b.1 (hfc a (hmem_sorted a ha))
            (hfc b (hmem_sorted b hb)) hne').mp hab
          cases hba : pairLt b a with
          | false => rfl
          | true =>
              simp only [pairLt, decide_eq_true_eq] at hba
              have h2 := (fieldCmp_lt_iff b.1 a.1 (hfc b (hmem_sorted b hb))
                (hfc a (hmem_sorted a ha)) (Ne.symm hne')).mp hba
              omega
      have hidem := sortByLt_eq_of_sorted pairLt (sortByLt pairLt ps) hsorted hasym
      rw [hfields]
      exact ⟨hstrict, hidem, fun kvs2 h2 => by rw [h2]⟩

theorem c3_sorted_fields_witness :
    WFObj [("Account", JVal.str "a"), ("Flags", JVal.num 5)] = true ∧
    serialize_pairs {} initSerState [("Account", JVal.str "a"), ("Flags", JVal.num 5)] =
      .ok ⟨0, none, [(⟨8, 1, none⟩, Value.AccountID "a"), (⟨2, 2, none⟩, Value.UInt32 5)]⟩ ∧
    ((sortByLt pairLt (SerState.fields ⟨0, none,
        [(⟨8, 1, none⟩, Value.AccountID "a"), (⟨2, 2, none⟩, Value.UInt32 5)]⟩)).Pairwise
          (fun a b => a.1.type_code * 256 + a.1.field_code <
            b.1.type_code * 256 + b.1.field_code) ∧
      sortByLt pairLt (sortByLt pairLt (SerState.fields ⟨0, none,
        [(⟨8, 1, none⟩, Value.AccountID "a"), (⟨2, 2, none⟩, Value.UInt32 5)]⟩)) =
        sortByLt pairLt (SerState.fields ⟨0, none,
          [(⟨8, 1, none⟩, Value.AccountID "a"), (⟨2, 2, none⟩, Value.UInt32 5)]⟩) ∧
      (∀ kvs2 : List (String × JVal),
        kvs2 = [("Account", JVal.str "a"), ("Flags", JVal.num 5)] →
        to_bytes_with_opts {} kvs2 =
          to_bytes_with_opts {} [("Account", JVal.str "a"), ("Flags", JVal.num 5)])) :=
  ⟨by decide, by rfl,
    c3_sorted_fields {} [("Account", JVal.str "a"), ("Flags", JVal.num 5)]
      ⟨0, none, [(⟨8, 1, none⟩, Value.AccountID "a"), (⟨2, 2, none⟩, Value.UInt32 5)]⟩
      (by decide) (by rfl)⟩

theorem to_bytes_with_opts_ok (opts : SerializerOptions) (kvs : List (String × JVal))
    (bs : List Nat) (hwf : kvs.all (fun p => WFVal p.1 p.2) = true)
    (hrun : to_bytes_with_opts opts kvs = .ok bs) :
    ∃ ps body, convertTop opts.signing_fields_only kvs = .ok ps ∧
      pairsBytes (sortByLt pairLt ps) = .ok body ∧
      bs = opts.pfx.getD [] ++ body ++ opts.sfx.getD [] := by
  rw [to_bytes_with_opts,
    serialize_pairs_convertTop opts kvs initSerState hwf rfl] at hrun
  cases hct : convertTop opts.signing_fields_only kvs with
  | error e => rw [hct] at hrun; simp [Except.map, exceptBind_err] at hrun
  | ok ps =>
      rw [hct] at hrun
      simp only [Except.map, exceptBind_ok] at hrun
      simp only [initSerState, List.nil_append] at hrun
      cases hpb : pairsBytes (sortByLt pairLt ps) with
      | error e => rw [hpb] at hrun; simp [exceptBind_err] at hrun
      | ok body =>
          rw [hpb] at hrun
          simp only [exceptBind_ok, Except.ok.injEq] at hrun
          exact ⟨ps, body, rfl, hpb, hrun.symm⟩

/-- C2: for every well-formed transaction object, `to_bytes_for_signing`
produces output beginning with the prefix `0x53545800`; the emitted pairs
are exactly the conversions of the keys that are both serialized and
signing fields — so no pair carries the header of a non-signing field, in
particular not `TxnSignature`'s `(type_code 7, field_code 4)` — and every
serialized signing field present in the input is emitted. -/
theorem c2_signing_filter (kvs : List (String × JVal)) (bs : List Nat)
    (hwf : WFObj kvs = true)
    (hrun : to_bytes_for_signing kvs = .ok bs) :
    bs.take 4 = TRANSACTION_SIG ∧
    ∃ ps body, convertTop true kvs = .ok ps ∧
      pairsBytes (sortByLt pairLt ps) = .ok body ∧
      bs = TRANSACTION_SIG ++ body ∧
      (∀ q ∈ ps, ∃ k, k ∈ kvs.map Prod.fst ∧
        (is_serialized_field k).getD false = true ∧
        (is_signing_field k).getD false = true ∧
        get_field_code_and_type_code k = .ok (q.1.field_code, q.1.type_code)) ∧
      (∀ q ∈ ps, ¬(q.1.type_code = 7 ∧ q.1.field_code = 4)) ∧
      (∀ kv ∈ kvs, keptKey true kv.1 = true →
        ∃ q ∈ ps, get_field_code_and_type_code kv.1 =
          .ok (q.1.field_code, q.1.type_code)) := by
  simp only [WFObj, Bool.and_eq_true, decide_eq_true_eq] at hwf
  obtain ⟨hall, hnd⟩ := hwf
  have hrun' : to_bytes_with_opts
      { pfx := some TRANSACTION_SIG, sfx := none, signing_fields_only := true }
      kvs = .ok bs := hrun
  obtain ⟨ps, body, hct0, hpb, hbs0⟩ := to_bytes_with_opts_ok _ kvs bs hall hrun'
  have hct : convertTop true kvs = .ok ps := hct0
  have hbs : bs = TRANSACTION_SIG ++ body := by
    rw [hbs0]; simp
  have hmem : ∀ q ∈ ps, ∃ k, k ∈ kvs.map Prod.fst ∧
      (is_serialized_field k).getD false = true ∧
      (is_signing_field k).getD false = true ∧
      get_field_code_and_type_code k = .ok (q.1.field_code, q.1.type_code) := by
    intro q hq
    obtain ⟨k, h1, h2, h3⟩ := convertTop_mem true kvs ps hct q hq
    simp only [keptKey, Bool.not_true, Bool.false_or, Bool.and_eq_true] at h2
    exact ⟨k, h1, h2.1, h2.2, h3⟩
  refine ⟨by rw [hbs]; rfl, ps, body, hct, hpb, hbs, hmem, ?_, ?_⟩
  · intro q hq hcon
    obtain ⟨htc, hfc⟩ := hcon
    obtain ⟨k, _, _, hsig, hget⟩ := hmem q hq
    rw [htc, hfc] at hget
    have hk : k = "TxnSignature" :=
      registry_header_inj k "TxnSignature" 4 7 4 7 hget (by rfl) rfl rfl
    rw [hk] at hsig
    exact absurd hsig (by decide)
  · exact convertTop_complete true kvs ps hct

theorem c2_signing_filter_witness :
    WFObj [("Flags", JVal.num 1), ("TxnSignature", JVal.str "AA")] = true ∧
    to_bytes_for_signing [("Flags", JVal.num 1), ("TxnSignature", JVal.str "AA")] =
      .ok [83, 84, 88, 0, 34, 0, 0, 0, 1] ∧
    (List.take 4 [83, 84, 88, 0, 34, 0, 0, 0, 1] = TRANSACTION_SIG ∧
     ∃ ps body,
       convertTop true [("Flags", JVal.num 1), ("TxnSignature", JVal.str "AA")] = .ok ps ∧
       pairsBytes (sortByLt pairLt ps) = .ok body ∧
       [83, 84, 88, 0, 34, 0, 0, 0, 1] = TRANSACTION_SIG ++ body ∧
       (∀ q ∈ ps, ∃ k,
         k ∈ ([("Flags", JVal.num 1), ("TxnSignature", JVal.str "AA")].map Prod.fst) ∧
         (is_serialized_field k).getD false = true ∧
         (is_signing_field k).getD false = true ∧
         get_field_code_and_type_code k = .ok (q.1.field_code, q.1.type_code)) ∧
       (∀ q ∈ ps, ¬(q.1.type_code = 7 ∧ q.1.field_code = 4)) ∧
       (∀ kv ∈ [("Flags", JVal.num 1), ("TxnSignature", JVal.str "AA")],
         keptKey true kv.1 = true →
         ∃ q ∈ ps, get_field_code_and_type_code kv.1 =
           .ok (q.1.field_code, q.1.type_code))) :=
  ⟨by decide, by rfl,
   c2_signing_filter [("Flags", JVal.num 1), ("TxnSignature", JVal.str "AA")]
     [83, 84, 88, 0, 34, 0, 0, 0, 1] (by decide) (by rfl)⟩

theorem get_tt_no_unknown (name : String) (e : Error)
    (h : get_transaction_type name = .error e) : ∀ s, e ≠ .unknownFieldName s := by
  intro s
  unfold get_transaction_type at h
  cases h1 : TRANSACTION_TYPES.find? (fun t => t.1 = name) <;> rw [h1] at h
  · cases h2 : LEDGER_ENTRY_TYPES.find? (fun t => t.1 = name) <;> rw [h2] at h
    · simp only [Except.error.injEq] at h
      subst h
      simp
    · simp at h
  · simp at h

theorem get_no_unknown (k : String)
    (hser : (is_serialized_field k).getD false = true) (e : Error)
    (hget : get_field_code_and_type_code k = .error e) :
    ∀ s, e ≠ .unknownFieldName s := by
  intro s
  unfold is_serialized_field at hser
  unfold get_field_code_and_type_code at hget
  cases hf : FIELDS.find? (fun f => f.1 = k) <;> rw [hf] at hser hget
  · simp at hser
  · dsimp only at hget
    rename_i f
    cases ht : TYPES.find? (fun t => t.1 = f.2.type) <;> rw [ht] at hget
    · simp only [Except.error.injEq] at hget
      subst hget
      simp
    · dsimp only at hget
      split_ifs at hget <;> simp only [Except.error.injEq] at hget <;>
        subst hget <;> simp

theorem convertVal_no_unknown (h : FieldHeader) (v : JVal) (e : Error)
    (hcv : convertVal h v = .error e) : ∀ s, e ≠ .unknownFieldName s := by
  intro s
  cases v with
  | str sv =>
      simp only [convertVal] at hcv
      split at hcv
      · simp at hcv
      · simp at hcv
      · split at hcv
        · simp only [Except.error.injEq] at hcv; subst hcv; simp
        · simp at hcv
      · simp at hcv
      · cases hg : get_transaction_type sv <;> rw [hg] at hcv
        · rw [exceptBind_err] at hcv
          simp only [Except.error.injEq] at hcv
          subst hcv
          exact get_tt_no_unknown sv _ hg s
        · rw [exceptBind_ok] at hcv; simp at hcv
      · split at hcv
        · simp only [Except.error.injEq] at hcv; subst hcv; simp
        · simp at hcv
      · simp only [Except.error.injEq] at hcv; subst hcv; simp
  | num n =>
      simp only [convertVal] at hcv
      split at hcv <;>
        first
        | (simp only [Except.error.injEq] at hcv; subst hcv; simp)
        | simp at hcv
  | jnull =>
      simp only [convertVal, Except.error.injEq] at hcv
      subst hcv
      simp
  | obj kvs =>
      simp only [convertVal] at hcv
      split at hcv
      · simp at hcv
      · simp only [Except.error.injEq] at hcv; subst hcv; simp

theorem convertTop_no_unknown (so : Bool) :
    ∀ (kvs : List (String × JVal)) (e : Error),
      convertTop so kvs = .error e → ∀ s, e ≠ .unknownFieldName s := by
  intro kvs
  induction kvs with
  | nil => intro e hct; simp [convertTop] at hct
  | cons p rest ih =>
      intro e hct s
      obtain ⟨k, v⟩ := p
      rw [convertTop] at hct
      by_cases hkeep : keptKey so k = true
      · rw [if_pos hkeep] at hct
        have hser : (is_serialized_field k).getD false = true := by
          simp only [keptKey, Bool.and_eq_true] at hkeep
          exact hkeep.1
        cases hget : get_field_code_and_type_code k <;> rw [hget] at hct
        · rw [exceptBind_err] at hct
          simp only [Except.error.injEq] at hct
          subst hct
          exact get_no_unknown k hser _ hget s
        · rw [exceptBind_ok] at hct
          rename_i fctc
          obtain ⟨fc, tc⟩ := fctc
          cases hcv : convertVal ⟨tc, fc, none⟩ v <;> rw [hcv] at hct
          · rw [exceptBind_err] at hct
            simp only [Except.error.injEq] at hct
            subst hct
            exact convertVal_no_unknown _ v _ hcv s
          · rw [exceptBind_ok] at hct
            cases htail : convertTop so rest <;> rw [htail] at hct
            · rw [exceptBind_err] at hct
              simp only [Except.error.injEq] at hct
              subst hct
              exact ih _ htail s
            · rw [exceptBind_ok] at hct; simp at hct
      · rw [if_neg hkeep] at hct
        exact ih _ hct s

/-- C10 (amended): a top-level key absent from the field registry or with
`is_serialized = false` is silently skipped when its value is flat (a
string, number or null): the encoding with the key equals the encoding
without it — no bytes, no error.  On well-formed objects the accumulation
never produces an `UnknownFieldName` error.  (For an *object* value under
an unknown key the skip claim is false: see the counterexample, where the
pending-field machinery leaks the inner keys into the output.) -/
theorem c10_unserialized_key_skipped (opts : SerializerOptions) (k : String)
    (v : JVal) (kvs : List (String × JVal))
    (hser : (is_serialized_field k).getD false = false)
    (hflat : ∀ kvs0, v ≠ JVal.obj kvs0)
    (hwf : WFObj kvs = true) :
    to_bytes_with_opts opts ((k, v) :: kvs) = to_bytes_with_opts opts kvs ∧
    (∀ e, serialize_pairs opts initSerState ((k, v) :: kvs) = .error e →
      ∀ s, e ≠ Error.unknownFieldName s) := by
  simp only [WFObj, Bool.and_eq_true, decide_eq_true_eq] at hwf
  obtain ⟨hall, _⟩ := hwf
  have hkey : serialize_key opts initSerState k = .ok initSerState := by
    simp [serialize_key, initSerState, hser]
  have hval : serialize_jval opts initSerState v = .ok initSerState := by
    cases v with
    | str s => simp [serialize_jval, serialize_str, initSerState]
    | num n => simp [serialize_jval, serialize_u64, initSerState]
    | jnull => rfl
    | obj kvs0 => exact absurd rfl (hflat kvs0)
  have hstep : serialize_pairs opts initSerState ((k, v) :: kvs) =
      serialize_pairs opts initSerState kvs := by
    simp only [serialize_pairs, hkey, exceptBind_ok, hval]
  constructor
  · rw [to_bytes_with_opts, to_bytes_with_opts, hstep]
  · intro e he s
    rw [hstep, serialize_pairs_convertTop opts kvs initSerState hall rfl] at he
    cases hct : convertTop opts.signing_fields_only kvs with
    | error e0 =>
        rw [hct] at he
        simp only [Except.map, Except.error.injEq] at he
        subst he
        exact convertTop_no_unknown opts.signing_fields_only kvs e0 hct s
    | ok ps => rw [hct] at he; simp [Except.map] at he

theorem c10_unserialized_key_skipped_witness :
    (is_serialized_field "zzz").getD false = false ∧
    WFObj [("Flags", JVal.num 1)] = true ∧
    (to_bytes_with_opts {} [("zzz", JVal.str "x"), ("Flags", JVal.num 1)] =
       to_bytes_with_opts {} [("Flags", JVal.num 1)] ∧
     (∀ e, serialize_pairs {} initSerState
         [("zzz", JVal.str "x"), ("Flags", JVal.num 1)] = .error e →
       ∀ s, e ≠ Error.unknownFieldName s)) :=
  ⟨by decide, by decide,
   c10_unserialized_key_skipped {} "zzz" (JVal.str "x") [("Flags", JVal.num 1)]
     (by decide) (fun kvs0 => by simp) (by decide)⟩

theorem c10_counterexample :
    (is_serialized_field "zzz").getD false = false ∧
    to_bytes [("zzz", JVal.obj [("Flags", JLeaf.num 1)])] = .ok [34, 0, 0, 0, 1] ∧
    to_bytes ([] : List (String × JVal)) = .ok [] :=
  ⟨by decide, by rfl, by rfl⟩

theorem StIC_key (opts : SerializerOptions) (st : SerState) (k : String) (st1 : SerState)
    (hok : serialize_key opts st k = .ok st1) (hst : StIC st = true) : StIC st1 = true := by
  obtain ⟨seq, fld, flds⟩ := st
  rcases fld with _ | ⟨hd, d⟩
  · simp only [serialize_key] at hok
    by_cases hser : (is_serialized_field k).getD false = true
    · rw [if_pos hser] at hok
      by_cases hfil : opts.signing_fields_only ∧ ¬(is_signing_field k).getD false = true
      · rw [if_pos (by simpa using hfil)] at hok
        simp only [Except.ok.injEq] at hok
        subst hok
        rfl
      · rw [if_neg (by simpa using hfil)] at hok
        cases hget : get_field_code_and_type_code k <;> rw [hget] at hok
        · rw [exceptBind_err] at hok; simp at hok
        · rw [exceptBind_ok] at hok
          simp only [Except.ok.injEq] at hok
          subst hok
          rfl
    · rw [if_neg (by simpa using hser)] at hok
      simp only [Except.ok.injEq] at hok
      subst hok
      rfl
  · by_cases htc : hd.type_code = 6
    · simp only [serialize_key, htc, if_true] at hok
      cases hsub : hd.sub_type <;> rw [hsub] at hok <;>
        simp only [Except.ok.injEq] at hok <;> subst hok
      · rfl
      · rename_i s
        simp only [StIC, hsub] at hst
        simpa [StIC] using hst
    · simp only [serialize_key, htc, if_false] at hok
      by_cases hser : (is_serialized_field k).getD false = true
      · rw [if_pos hser] at hok
        by_cases hfil : opts.signing_fields_only ∧ ¬(is_signing_field k).getD false = true
        · rw [if_pos (by simpa using hfil)] at hok
          simp only [Except.ok.injEq] at hok
          subst hok
          exact hst
        · rw [if_neg (by simpa using hfil)] at hok
          cases hget : get_field_code_and_type_code k <;> rw [hget] at hok
          · rw [exceptBind_err] at hok; simp at hok
          · rw [exceptBind_ok] at hok
            simp only [Except.ok.injEq] at hok
            subst hok
            rfl
      · rw [if_neg (by simpa using hser)] at hok
        simp only [Except.ok.injEq] at hok
        subst hok
        rfl

theorem StIC_str (st : SerState) (s : String) (st1 : SerState)
    (hok : serialize_str st s = .ok st1) (hst : StIC st = true) : StIC st1 = true := by
  obtain ⟨seq, fld, flds⟩ := st
  rcases fld with _ | ⟨hd, d⟩
  · simp only [serialize_str, Except.ok.injEq] at hok
    subst hok
    rfl
  · simp only [serialize_str] at hok
    split at hok
    · -- type code 19 (Vector256)
      split_ifs at hok with h0 h1
      all_goals try simp at hok
      all_goals subst hok
      all_goals first
        | simpa [StIC] using hst
        | simp [StIC, pushField]
    · simp only [Except.ok.injEq] at hok; subst hok; rfl
    · simp only [Except.ok.injEq] at hok; subst hok; rfl
    · -- type code 6
      split at hok
      · -- sub_type none: XRP parse
        split at hok
        · simp at hok
        · simp only [Except.ok.injEq] at hok; subst hok; rfl
      · -- sub_type some: issued-currency builder
        split at hok
        · simp only [Except.ok.injEq] at hok; subst hok; rfl
        · rename_i sub hsub vv cc ii hnall
          simp only [Except.ok.injEq] at hok
          subst hok
          simp only [StIC]
          cases hv1 : (if sub.current_key = "value" then { sub with value := some s }
              else if sub.current_key = "currency" then { sub with currency := some s }
              else if sub.current_key = "issuer" then { sub with issuer := some s }
              else sub).value <;>
            cases hv2 : (if sub.current_key = "value" then { sub with value := some s }
              else if sub.current_key = "currency" then { sub with currency := some s }
              else if sub.current_key = "issuer" then { sub with issuer := some s }
              else sub).currency <;>
            cases hv3 : (if sub.current_key = "value" then { sub with value := some s }
              else if sub.current_key = "currency" then { sub with currency := some s }
              else if sub.current_key = "issuer" then { sub with issuer := some s }
              else sub).issuer <;>
            simp [hv1, hv2, hv3]
          rename_i v1 v2 v3
          exact absurd (hnall v1 v2 v3) (by simp [hv1, hv2, hv3])
    · simp only [Except.ok.injEq] at hok; subst hok; rfl
    · -- type code 1: transaction type
      cases hg : get_transaction_type s <;> rw [hg] at hok
      · rw [exceptBind_err] at hok; simp at hok
      · rw [exceptBind_ok] at hok
        simp only [Except.ok.injEq] at hok; subst hok; rfl
    · -- type code 3: UInt64 parse
      split at hok
      · simp at hok
      · simp only [Except.ok.injEq] at hok; subst hok; rfl
    · simp at hok

theorem StIC_u64 (st : SerState) (v : Nat) (st1 : SerState)
    (hok : serialize_u64 st v = .ok st1) (hst : StIC st = true) : StIC st1 = true := by
  obtain ⟨seq, fld, flds⟩ := st
  rcases fld with _ | ⟨hd, d⟩
  · simp only [serialize_u64, Except.ok.injEq] at hok
    subst hok
    rfl
  · simp only [serialize_u64] at hok
    split at hok <;>
      first
      | (simp only [Except.ok.injEq] at hok; subst hok; simp [StIC, pushField])
      | simp at hok

theorem StIC_leaf (st : SerState) (v : JLeaf) (st1 : SerState)
    (hok : serialize_leaf st v = .ok st1) (hst : StIC st = true) : StIC st1 = true := by
  cases v with
  | str s => exact StIC_str st s st1 hok hst
  | num n => exact StIC_u64 st n st1 hok hst
  | jnull =>
      simp only [serialize_leaf, Except.ok.injEq] at hok
      subst hok
      exact hst

theorem StIC_leaf_pairs (opts : SerializerOptions) :
    ∀ (kvs : List (String × JLeaf)) (st st1 : SerState),
      serialize_leaf_pairs opts st kvs = .ok st1 → StIC st = true → StIC st1 = true := by
  intro kvs
  induction kvs with
  | nil =>
      intro st st1 hok hst
      simp only [serialize_leaf_pairs, Except.ok.injEq] at hok
      subst hok
      exact hst
  | cons p rest ih =>
      intro st st1 hok hst
      obtain ⟨k, v⟩ := p
      rw [serialize_leaf_pairs] at hok
      cases hk : serialize_key opts st k <;> rw [hk] at hok
      · rw [exceptBind_err] at hok; simp at hok
      · rw [exceptBind_ok] at hok
        rename_i stA
        cases hv : serialize_leaf stA v <;> rw [hv] at hok
        · rw [exceptBind_err] at hok; simp at hok
        · rw [exceptBind_ok] at hok
          rename_i stB
          exact ih stB st1 hok (StIC_leaf stA v stB hv (StIC_key opts st k stA hk hst))

theorem StIC_jval (opts : SerializerOptions) (st : SerState) (v : JVal) (st1 : SerState)
    (hok : serialize_jval opts st v = .ok st1) (hst : StIC st = true) : StIC st1 = true := by
  cases v with
  | str s => exact StIC_str st s st1 hok hst
  | num n => exact StIC_u64 st n st1 hok hst
  | jnull =>
      simp only [serialize_jval, Except.ok.injEq] at hok
      subst hok
      exact hst
  | obj kvs => exact StIC_leaf_pairs opts kvs st st1 hok hst

theorem serialize_pairs_hash (opts : SerializerOptions) (st : SerState)
    (hst : StIC st = true) (h : Option String) (rest : List (String × JVal)) :
    serialize_pairs opts st (("Hash", optStr h) :: rest) =
      serialize_pairs opts (hashStep st) rest := by
  obtain ⟨seq, fld, flds⟩ := st
  rcases fld with _ | ⟨hd, d⟩
  · cases h <;>
      simp [serialize_pairs, serialize_key, hashStep, optStr, serialize_jval,
        serialize_str, exceptBind_ok, show is_serialized_field "Hash" = none from rfl]
  · by_cases htc : hd.type_code = 6
    · cases hsub : hd.sub_type with
      | none =>
          cases h <;>
            simp [serialize_pairs, serialize_key, hashStep, optStr, serialize_jval,
              serialize_str, htc, hsub, exceptBind_ok]
      | some s =>
          simp only [StIC, hsub] at hst
          cases h with
          | none =>
              simp [serialize_pairs, serialize_key, hashStep, optStr, serialize_jval,
                htc, hsub, exceptBind_ok]
          | some hs =>
              cases hv1 : s.value <;> cases hv2 : s.currency <;> cases hv3 : s.issuer <;>
                simp [hv1, hv2, hv3] at hst ⊢ <;>
                simp [serialize_pairs, serialize_key, hashStep, optStr, serialize_jval,
                  serialize_str, htc, hsub, hv1, hv2, hv3, exceptBind_ok]
    · cases h <;>
        simp [serialize_pairs, serialize_key, hashStep, optStr, serialize_jval,
          serialize_str, htc, exceptBind_ok,
          show is_serialized_field "Hash" = none from rfl]

theorem serialize_pairs_hash_congr (opts : SerializerOptions) :
    ∀ (pre : List (String × JVal)) (st : SerState), StIC st = true →
      ∀ (h1 h2 : Option String) (post : List (String × JVal)),
      serialize_pairs opts st (pre ++ ("Hash", optStr h1) :: post) =
        serialize_pairs opts st (pre ++ ("Hash", optStr h2) :: post) := by
  intro pre
  induction pre with
  | nil =>
      intro st hst h1 h2 post
      simp only [List.nil_append]
      rw [serialize_pairs_hash opts st hst h1 post,
        serialize_pairs_hash opts st hst h2 post]
  | cons p pre ih =>
      intro st hst h1 h2 post
      obtain ⟨k, v⟩ := p
      simp only [List.cons_append, serialize_pairs]
      cases hk : serialize_key opts st k with
      | error e => rw [exceptBind_err, exceptBind_err]
      | ok stA =>
          rw [exceptBind_ok, exceptBind_ok]
          cases hv : serialize_jval opts stA v with
          | error e => rw [exceptBind_err, exceptBind_err]
          | ok stB =>
              rw [exceptBind_ok, exceptBind_ok]
              exact ih stB
                (StIC_jval opts stA v stB hv (StIC_key opts st k stA hk hst)) h1 h2 post

theorem to_bytes_hash_irrelevant (t : Transaction) (h : Option String) :
    to_bytes (txToJson { t with hash := h }) = to_bytes (txToJson t) := by
  have hpre : txJsonPre { t with hash := h } = txJsonPre t := rfl
  have hpost : txJsonPost { t with hash := h } = txJsonPost t := rfl
  rw [to_bytes, to_bytes, to_bytes_with_opts, to_bytes_with_opts, txToJson, txToJson,
    hpre, hpost,
    serialize_pairs_hash_congr {} (txJsonPre t) initSerState rfl h t.hash (txJsonPost t)]

/-- C1 (amended): when `Wallet::sign` succeeds it sets `signing_pub_key`
to the LOWER-case hex of the wallet's compressed public key (the
`secp256k1` `Display` — the code does not uppercase it, contrary to the
spec); it sets `txn_signature` to the upper-case signature over
SHA-512-Half of the signing blob of the updated transaction; the returned
string is the upper-case hex of `full_blob`, the standard (non-signing)
encoding of the transaction after `txn_signature` is set — which, since
the `hash` field is not a serialized field, equals the standard encoding
of the final returned transaction — and `hash` is set to the upper-case
hex of SHA-512-Half(`0x54584E00` ‖ `full_blob`). -/
theorem c1_wallet_sign (pubkey : List Nat) (sha512 ecdsa_sign : List Nat → List Nat)
    (tx tx' : Transaction) (ret : String)
    (h : Wallet.sign pubkey sha512 ecdsa_sign tx = .ok (tx', ret)) :
    tx'.signing_pub_key = hexStrLower pubkey ∧
    ∃ sblob blob,
      to_bytes_for_signing
        (txToJson { tx with signing_pub_key := hexStrLower pubkey }) = .ok sblob ∧
      tx'.txn_signature = some (hexStrUpper (ecdsa_sign ((sha512 sblob).take 32))) ∧
      to_bytes (txToJson tx') = .ok blob ∧
      ret = hexStrUpper blob ∧
      tx'.hash = some (hexStrUpper ((sha512 (TRANSACTION_ID ++ blob)).take 32)) := by
  simp only [Wallet.sign] at h
  cases hsb : to_bytes_for_signing
      (txToJson { tx with signing_pub_key := hexStrLower pubkey }) with
  | error e => rw [hsb, exceptBind_err] at h; simp at h
  | ok sblob =>
      rw [hsb, exceptBind_ok] at h
      cases hb : to_bytes (txToJson
          { { tx with signing_pub_key := hexStrLower pubkey } with
            txn_signature := some (hexStrUpper (ecdsa_sign ((sha512 sblob).take 32))) }) with
      | error e => rw [hb, exceptBind_err] at h; simp at h
      | ok blob =>
          rw [hb, exceptBind_ok] at h
          simp only [Except.ok.injEq, Prod.mk.injEq] at h
          obtain ⟨htx, hret⟩ := h
          subst htx
          subst hret
          refine ⟨rfl, sblob, blob, rfl, rfl, ?_, rfl, rfl⟩
          exact (to_bytes_hash_irrelevant _ _).trans hb

theorem c1_wallet_sign_witness :
    Wallet.sign samplePubkey dummySha512 dummyEcdsa samplePayment =
      .ok (⟨accountZero, 12, 7, 0,
        "03ab01010101010101010101010101010101010101010101010101010101010101",
        some "0102", some 2147483648, some (.Payment (.XRP 5000) accountZero),
        some "0000000000000000000000000000000000000000000000000000000000000000"⟩,
        "12000022800000002400000007201B0000000061400000000000138868400000000000000C732103AB01010101010101010101010101010101010101010101010101010101010101740201028114000000000000000000000000000000000000000083140000000000000000000000000000000000000000") ∧
    (Transaction.signing_pub_key ⟨accountZero, 12, 7, 0,
        "03ab01010101010101010101010101010101010101010101010101010101010101",
        some "0102", some 2147483648, some (.Payment (.XRP 5000) accountZero),
        some "0000000000000000000000000000000000000000000000000000000000000000"⟩ =
      hexStrLower samplePubkey ∧
     ∃ sblob blob,
       to_bytes_for_signing (txToJson
         { samplePayment with signing_pub_key := hexStrLower samplePubkey }) = .ok sblob ∧
       Transaction.txn_signature ⟨accountZero, 12, 7, 0,
           "03ab01010101010101010101010101010101010101010101010101010101010101",
           some "0102", some 2147483648, some (.Payment (.XRP 5000) accountZero),
           some "0000000000000000000000000000000000000000000000000000000000000000"⟩ =
         some (hexStrUpper (dummyEcdsa ((dummySha512 sblob).take 32))) ∧
       to_bytes (txToJson ⟨accountZero, 12, 7, 0,
           "03ab01010101010101010101010101010101010101010101010101010101010101",
           some "0102", some 2147483648, some (.Payment (.XRP 5000) accountZero),
           some "0000000000000000000000000000000000000000000000000000000000000000"⟩) =
         .ok blob ∧
       "12000022800000002400000007201B0000000061400000000000138868400000000000000C732103AB01010101010101010101010101010101010101010101010101010101010101740201028114000000000000000000000000000000000000000083140000000000000000000000000000000000000000" =
         hexStrUpper blob ∧
       Transaction.hash ⟨accountZero, 12, 7, 0,
           "03ab01010101010101010101010101010101010101010101010101010101010101",
           some "0102", some 2147483648, some (.Payment (.XRP 5000) accountZero),
           some "0000000000000000000000000000000000000000000000000000000000000000"⟩ =
         some (hexStrUpper ((dummySha512 (TRANSACTION_ID ++ blob)).take 32))) :=
  ⟨by rfl,
   c1_wallet_sign samplePubkey dummySha512 dummyEcdsa samplePayment
     ⟨accountZero, 12, 7, 0,
       "03ab01010101010101010101010101010101010101010101010101010101010101",
       some "0102", some 2147483648, some (.Payment (.XRP 5000) accountZero),
       some "0000000000000000000000000000000000000000000000000000000000000000"⟩
     "12000022800000002400000007201B0000000061400000000000138868400000000000000C732103AB01010101010101010101010101010101010101010101010101010101010101740201028114000000000000000000000000000000000000000083140000000000000000000000000000000000000000"
     (by rfl)⟩

theorem c1_wallet_sign_counterexample :
    (Wallet.sign samplePubkey dummySha512 dummyEcdsa samplePayment).map
        (fun p => p.1.signing_pub_key) = .ok (hexStrLower samplePubkey) ∧
    hexStrLower samplePubkey ≠ hexStrUpper samplePubkey :=
  ⟨by rfl, by decide⟩
